import Mathlib

/-!
Verification development for the `doc_compare` repository's text-comparison
module.  The repository contains two variants of the module:

* `src/src/utils/textComparison.ts` (namespace `TextComparison` below):
  word-level `compareDocuments`, element-wise `compareHtmlDocuments` over
  parsed nodes, `compareWithWhitespace`, and a pass-through
  `renderHtmlDifferences`;
* `src/unnamed/part_000` (namespace `Part000` below): sentence-level
  `compareDocuments`, block-level `compareHtmlDocuments` driven by a
  sequence diff over parsed blocks, and a div-wrapping
  `renderHtmlDifferences`.

The external `diff` library primitives (`diffWords`, `diffChars`,
`diffSentences`, `diffArrays`) and the DOM-based HTML parsers
(`parseHtmlElements`, `parseHtmlBlocks`) are explicitly delegated to
external components, so they enter the embedding as function parameters;
the contracts the library documents (a diff is a segmentation of both
inputs) are stated as explicit predicates (`ValidDiff`, `ValidArrayDiff`).
-/

set_option maxHeartbeats 1000000

/-- The `DiffResult.type` field of the repository's `DiffResult` record:
one of `'insert'`, `'delete'`, `'equal'`. -/
inductive DiffType where
  | insert
  | delete
  | equal
  deriving DecidableEq

/-- The repository's `DiffResult` record: a diff entry with a type and the
text content carried by the entry. -/
structure DiffResult where
  type : DiffType
  content : String
  deriving DecidableEq

/-- The `summary` component of a `ComparisonResult`. -/
structure Summary where
  additions : Nat
  deletions : Nat
  changes : Nat
  deriving DecidableEq

/-- The repository's `ComparisonResult` record. -/
structure ComparisonResult where
  leftDiffs : List DiffResult
  rightDiffs : List DiffResult
  summary : Summary
  deriving DecidableEq

/-- A change object produced by the external `diff` library: `added` and
`removed` flags plus the carried value (a `String` for the text diffs, a
`List String` for `diffArrays`). -/
structure Change (α : Type) where
  added : Bool
  removed : Bool
  value : α
  deriving DecidableEq

/-- The options record passed to `diffWords` at `textComparison.ts:6`. -/
structure WordDiffOptions where
  ignoreWhitespace : Bool
  ignoreCase : Bool
  deriving DecidableEq

/-- The options record passed to `diffChars` in `compareElementText` and
`compareWithWhitespace`. -/
structure CharDiffOptions where
  ignoreWhitespace : Bool
  deriving DecidableEq

/-- `escapeHtml` (present identically in both source files) creates a DOM
`div`, assigns `textContent` and reads back `innerHTML`.  DOM construction
and serialization are delegated to the host environment (out of scope per
the spec), so the browser's serialization of a text node is modelled here:
the markup-significant characters `&`, `<`, `>` are escaped and every other
character is kept. -/
def escapeHtml (text : String) : String :=
  String.join (text.toList.map fun c =>
    if c = '&' then "&amp;"
    else if c = '<' then "&lt;"
    else if c = '>' then "&gt;"
    else String.singleton c)

/-- `highlightDifferences`, defined identically in both source files:
inserts become `span.diff-insert` around the escaped content, deletes
become `span.diff-delete` around the escaped content, and everything else
is emitted as escaped content only, joined in input order. -/
def highlightDifferences (diffs : List DiffResult) : String :=
  String.join (diffs.map fun diff =>
    match diff.type with
    | .insert => "<span class=\"diff-insert\">" ++ escapeHtml diff.content ++ "</span>"
    | .delete => "<span class=\"diff-delete\">" ++ escapeHtml diff.content ++ "</span>"
    | .equal => escapeHtml diff.content)

/-- Accumulator for the `forEach` loops of both `compareDocuments`
variants: the two output arrays and the two summary counters that are
mutated while walking the change list. -/
structure DiffAcc where
  leftDiffs : List DiffResult
  rightDiffs : List DiffResult
  additions : Nat
  deletions : Nat
  deriving DecidableEq

namespace TextComparison

/-- One iteration of the `diffs.forEach` loop of the word-level
`compareDocuments` (`textComparison.ts:15-26`): an added change is pushed
on the right as an insert, a removed change on the left as a delete, and
any other change on both sides as equal. -/
def compareStep (st : DiffAcc) (diff : Change String) : DiffAcc :=
  if diff.added then
    { st with rightDiffs := st.rightDiffs ++ [⟨.insert, diff.value⟩],
              additions := st.additions + 1 }
  else if diff.removed then
    { st with leftDiffs := st.leftDiffs ++ [⟨.delete, diff.value⟩],
              deletions := st.deletions + 1 }
  else
    { st with leftDiffs := st.leftDiffs ++ [⟨.equal, diff.value⟩],
              rightDiffs := st.rightDiffs ++ [⟨.equal, diff.value⟩] }

/-- `compareDocuments` of `textComparison.ts:4-31`: run `diffWords` on the
two texts with `ignoreWhitespace: false, ignoreCase: false`, walk the
changes, and finally set `summary.changes` to `additions + deletions`.
The external `diffWords` primitive is a parameter. -/
def compareDocuments (diffWords : String → String → WordDiffOptions → List (Change String))
    (leftText rightText : String) : ComparisonResult :=
  let diffs := diffWords leftText rightText ⟨false, false⟩
  let st := diffs.foldl compareStep ⟨[], [], 0, 0⟩
  ⟨st.leftDiffs, st.rightDiffs, ⟨st.additions, st.deletions, st.additions + st.deletions⟩⟩

/-- The left entries contributed by one change in the word-level loop. -/
def leftEntry (c : Change String) : DiffResult :=
  if c.removed then ⟨.delete, c.value⟩ else ⟨.equal, c.value⟩

/-- The right entries contributed by one change in the word-level loop. -/
def rightEntry (c : Change String) : DiffResult :=
  if c.added then ⟨.insert, c.value⟩ else ⟨.equal, c.value⟩

lemma compareStep_foldl (cs : List (Change String)) (st : DiffAcc) :
    cs.foldl compareStep st =
      ⟨st.leftDiffs ++ ((cs.filter fun c => !c.added).map leftEntry),
       st.rightDiffs ++ ((cs.filter fun c => c.added || !c.removed).map rightEntry),
       st.additions + (cs.filter fun c => c.added).length,
       st.deletions + (cs.filter fun c => !c.added && c.removed).length⟩ := by
  induction cs generalizing st with
  | nil => simp
  | cons c cs ih =>
    rw [List.foldl_cons, ih]
    cases ha : c.added with
    | true =>
      simp [compareStep, ha, rightEntry, Nat.add_assoc, Nat.add_comm 1]
    | false =>
      cases hr : c.removed with
      | true =>
        simp [compareStep, ha, hr, leftEntry, Nat.add_assoc, Nat.add_comm 1]
      | false =>
        simp [compareStep, ha, hr, leftEntry, rightEntry]

/-- Closed form of the word-level `compareDocuments`. -/
lemma compareDocuments_eq (diffWords : String → String → WordDiffOptions → List (Change String))
    (leftText rightText : String) :
    compareDocuments diffWords leftText rightText =
      ⟨((diffWords leftText rightText ⟨false, false⟩).filter fun c => !c.added).map leftEntry,
       ((diffWords leftText rightText ⟨false, false⟩).filter fun c => c.added || !c.removed).map rightEntry,
       ⟨((diffWords leftText rightText ⟨false, false⟩).filter fun c => c.added).length,
        ((diffWords leftText rightText ⟨false, false⟩).filter fun c => !c.added && c.removed).length,
        ((diffWords leftText rightText ⟨false, false⟩).filter fun c => c.added).length +
          ((diffWords leftText rightText ⟨false, false⟩).filter fun c => !c.added && c.removed).length⟩⟩ := by
  simp [compareDocuments, compareStep_foldl]

end TextComparison

/-- The `ParsedElement` interface of `textComparison.ts:102-108` (tag,
outer HTML, text content, attribute list, children).  Attribute order is
the object-key insertion order, modelled as a list of name/value pairs. -/
inductive ParsedElement where
  | mk (tag html text : String) (attributes : List (String × String))
      (children : List ParsedElement)

/-- The `tag` field of a `ParsedElement`. -/
def ParsedElement.tag : ParsedElement → String
  | .mk t _ _ _ _ => t

/-- The `html` field of a `ParsedElement`. -/
def ParsedElement.html : ParsedElement → String
  | .mk _ h _ _ _ => h

/-- The `text` field of a `ParsedElement`. -/
def ParsedElement.text : ParsedElement → String
  | .mk _ _ t _ _ => t

/-- The `attributes` field of a `ParsedElement`. -/
def ParsedElement.attributes : ParsedElement → List (String × String)
  | .mk _ _ _ a _ => a

namespace TextComparison

/-- The self-closing tag list of `reconstructElementHtml`
(`textComparison.ts:227`). -/
def selfClosing : List String := ["img", "br", "hr", "input", "meta", "link"]

/-- The attribute serialization of `reconstructElementHtml`
(`textComparison.ts:220-222`): each attribute becomes
`name="escapeHtml(value)"` and the pieces are joined with single spaces. -/
def attrsText (attributes : List (String × String)) : String :=
  String.intercalate " " (attributes.map fun kv => kv.1 ++ "=\"" ++ escapeHtml kv.2 ++ "\"")

/-- `reconstructElementHtml` (`textComparison.ts:214-233`): a `text`
pseudo-element is replaced by the new text; a self-closing tag is emitted
without content; otherwise the element is rebuilt as
`<tag attrs>newTextContent</tag>`. -/
def reconstructElementHtml (element : ParsedElement) (newTextContent : String) : String :=
  if element.tag = "text" then newTextContent
  else
    let attrs := attrsText element.attributes
    let attrString := if attrs = "" then "" else " " ++ attrs
    if element.tag ∈ selfClosing then
      "<" ++ element.tag ++ attrString ++ " />"
    else
      "<" ++ element.tag ++ attrString ++ ">" ++ newTextContent ++ "</" ++ element.tag ++ ">"

/-- Accumulator for the `diffs.forEach` loop of `compareElementText`
(`textComparison.ts:181-196`): the two highlighted HTML strings and the
two counters. -/
structure HighlightAcc where
  leftHtml : String
  rightHtml : String
  additions : Nat
  deletions : Nat
  deriving DecidableEq

/-- One iteration of the `compareElementText` loop. -/
def charStep (st : HighlightAcc) (diff : Change String) : HighlightAcc :=
  if diff.added then
    { st with rightHtml := st.rightHtml ++ "<span class=\"diff-insert\">" ++ escapeHtml diff.value ++ "</span>",
              additions := st.additions + 1 }
  else if diff.removed then
    { st with leftHtml := st.leftHtml ++ "<span class=\"diff-delete\">" ++ escapeHtml diff.value ++ "</span>",
              deletions := st.deletions + 1 }
  else
    let escaped := escapeHtml diff.value
    { st with leftHtml := st.leftHtml ++ escaped, rightHtml := st.rightHtml ++ escaped }

/-- Return value of `compareElementText` (`textComparison.ts:167-171`);
the `summary` sub-record is flattened into the two counter fields. -/
structure ElementTextResult where
  left : List DiffResult
  right : List DiffResult
  additions : Nat
  deletions : Nat
  deriving DecidableEq

/-- The `diffs.forEach` fold of `compareElementText`
(`textComparison.ts:181-196`), building both highlighted strings and the
two counters. -/
def charHighlight (diffs : List (Change String)) : HighlightAcc :=
  diffs.foldl charStep ⟨"", "", 0, 0⟩

/-- `compareElementText` (`textComparison.ts:167-212`) continued: run
`diffChars` (`ignoreWhitespace: false`) on the two elements' text, build
the two highlighted strings, rebuild each element around its highlighted
string, and emit one entry per side whose type records whether that side
saw any change. -/
def compareElementText (diffChars : String → String → CharDiffOptions → List (Change String))
    (leftEl rightEl : ParsedElement) : ElementTextResult :=
  let diffs := diffChars leftEl.text rightEl.text ⟨false⟩
  let st := charHighlight diffs
  let leftReconstructed := reconstructElementHtml leftEl st.leftHtml
  let rightReconstructed := reconstructElementHtml rightEl st.rightHtml
  ⟨[⟨if st.deletions > 0 then .delete else .equal, leftReconstructed⟩],
   [⟨if st.additions > 0 then .insert else .equal, rightReconstructed⟩],
   st.additions, st.deletions⟩

/-- The tail of the `for (let i = 0; i < maxLength; i++)` loop of the
element-wise `compareHtmlDocuments` once the left array is exhausted
(`textComparison.ts:69-73`): every remaining right element is an insert,
padded by an empty equal entry on the left. -/
def padInserts : List ParsedElement → DiffAcc
  | [] => ⟨[], [], 0, 0⟩
  | rightEl :: rs =>
    let rest := padInserts rs
    ⟨⟨.equal, ""⟩ :: rest.leftDiffs, ⟨.insert, rightEl.html⟩ :: rest.rightDiffs,
     rest.additions + 1, rest.deletions⟩

/-- The `for (let i = 0; i < maxLength; i++)` loop of the element-wise
`compareHtmlDocuments` (`textComparison.ts:65-96`).  Indexing past the end
of an array yields `undefined` in the source and is tested explicitly
there, so the loop is structural recursion on the two lists; once the left
list is exhausted only the insert branch can fire (`padInserts`). -/
def compareElements (diffChars : String → String → CharDiffOptions → List (Change String)) :
    List ParsedElement → List ParsedElement → DiffAcc
  | [], rs => padInserts rs
  | leftEl :: ls, [] =>
    let rest := compareElements diffChars ls []
    ⟨⟨.delete, leftEl.html⟩ :: rest.leftDiffs, ⟨.equal, ""⟩ :: rest.rightDiffs,
     rest.additions, rest.deletions + 1⟩
  | leftEl :: ls, rightEl :: rs =>
    let rest := compareElements diffChars ls rs
    if leftEl.tag = rightEl.tag then
      let tc := compareElementText diffChars leftEl rightEl
      ⟨tc.left ++ rest.leftDiffs, tc.right ++ rest.rightDiffs,
       rest.additions + tc.additions, rest.deletions + tc.deletions⟩
    else
      ⟨⟨.delete, leftEl.html⟩ :: rest.leftDiffs, ⟨.insert, rightEl.html⟩ :: rest.rightDiffs,
       rest.additions + 1, rest.deletions + 1⟩

/-- The element-wise `compareHtmlDocuments` (`textComparison.ts:53-100`):
parse both inputs (the DOM parser `parseHtmlElements` is a parameter),
align the two element lists by position, and set `summary.changes` to
`additions + deletions` at the end. -/
def compareHtmlDocuments (parseHtmlElements : String → List ParsedElement)
    (diffChars : String → String → CharDiffOptions → List (Change String))
    (leftHtml rightHtml : String) : ComparisonResult :=
  let leftElements := parseHtmlElements leftHtml
  let rightElements := parseHtmlElements rightHtml
  let st := compareElements diffChars leftElements rightElements
  ⟨st.leftDiffs, st.rightDiffs, ⟨st.additions, st.deletions, st.additions + st.deletions⟩⟩

/-- `renderHtmlDifferences` (`textComparison.ts:236-243`): emit each
entry's stored content unchanged, skipping `equal` entries whose content
is blank after trimming. -/
def renderHtmlDifferences (diffs : List DiffResult) : String :=
  String.join (diffs.map fun diff =>
    if diff.type = .equal ∧ diff.content.trim = "" then "" else diff.content)

/-- Accumulator for the line loop of `compareWithWhitespace`. -/
structure WalkAcc where
  leftDiffs : List DiffResult
  rightDiffs : List DiffResult
  additions : Nat
  deletions : Nat
  changes : Nat
  deriving DecidableEq

/-- Accumulator for the per-line `lineDiffs.forEach` loop of
`compareWithWhitespace` (`textComparison.ts:279-291`). -/
structure LineAcc where
  leftLineHtml : String
  rightLineHtml : String
  hasChanges : Bool
  deriving DecidableEq

/-- One iteration of the per-line loop of `compareWithWhitespace`. -/
def lineStep (st : LineAcc) (diff : Change String) : LineAcc :=
  if diff.added then
    { st with rightLineHtml := st.rightLineHtml ++ "<span class=\"diff-insert\">" ++ escapeHtml diff.value ++ "</span>",
              hasChanges := true }
  else if diff.removed then
    { st with leftLineHtml := st.leftLineHtml ++ "<span class=\"diff-delete\">" ++ escapeHtml diff.value ++ "</span>",
              hasChanges := true }
  else
    let escaped := escapeHtml diff.value
    { st with leftLineHtml := st.leftLineHtml ++ escaped,
              rightLineHtml := st.rightLineHtml ++ escaped }

/-- The part of the `compareWithWhitespace` loop that runs once the left
line list is exhausted: every remaining right line is an insert padded by
an empty equal entry (`textComparison.ts:261-265`). -/
def padInsertLines : List String → WalkAcc
  | [] => ⟨[], [], 0, 0, 0⟩
  | rightLine :: rs =>
    let rest := padInsertLines rs
    ⟨⟨.equal, ""⟩ :: rest.leftDiffs, ⟨.insert, rightLine ++ "\n"⟩ :: rest.rightDiffs,
     rest.additions + 1, rest.deletions, rest.changes⟩

/-- The `for (let i = 0; i < maxLines; i++)` loop of
`compareWithWhitespace` (`textComparison.ts:257-306`), as structural
recursion on the two line lists. -/
def walkLines (diffChars : String → String → CharDiffOptions → List (Change String)) :
    List String → List String → WalkAcc
  | [], rs => padInsertLines rs
  | leftLine :: ls, [] =>
    let rest := walkLines diffChars ls []
    ⟨⟨.delete, leftLine ++ "\n"⟩ :: rest.leftDiffs, ⟨.equal, ""⟩ :: rest.rightDiffs,
     rest.additions, rest.deletions + 1, rest.changes⟩
  | leftLine :: ls, rightLine :: rs =>
    let rest := walkLines diffChars ls rs
    if leftLine ≠ rightLine then
      let st := (diffChars leftLine rightLine ⟨false⟩).foldl lineStep ⟨"", "", false⟩
      if st.hasChanges then
        ⟨⟨.delete, st.leftLineHtml ++ "\n"⟩ :: rest.leftDiffs,
         ⟨.insert, st.rightLineHtml ++ "\n"⟩ :: rest.rightDiffs,
         rest.additions, rest.deletions, rest.changes + 1⟩
      else
        ⟨⟨.equal, leftLine ++ "\n"⟩ :: rest.leftDiffs,
         ⟨.equal, rightLine ++ "\n"⟩ :: rest.rightDiffs,
         rest.additions, rest.deletions, rest.changes⟩
    else
      ⟨⟨.equal, leftLine ++ "\n"⟩ :: rest.leftDiffs,
       ⟨.equal, rightLine ++ "\n"⟩ :: rest.rightDiffs,
       rest.additions, rest.deletions, rest.changes⟩

/-- `compareWithWhitespace` (`textComparison.ts:246-310`): split both
texts into lines, walk the lines, and overwrite `summary.changes` with
`additions + deletions` before returning (`textComparison.ts:308`). -/
def compareWithWhitespace (diffChars : String → String → CharDiffOptions → List (Change String))
    (leftText rightText : String) : ComparisonResult :=
  let leftLines := leftText.splitOn "\n"
  let rightLines := rightText.splitOn "\n"
  let st := walkLines diffChars leftLines rightLines
  ⟨st.leftDiffs, st.rightDiffs, ⟨st.additions, st.deletions, st.additions + st.deletions⟩⟩

end TextComparison

namespace Part000

/-- One iteration of the `diffs.forEach` loop of the sentence-level
`compareDocuments` (`part_000:12-25`): unlike the word-level variant, an
added or removed change also pushes an empty `equal` entry on the opposite
side. -/
def compareStep (st : DiffAcc) (diff : Change String) : DiffAcc :=
  if diff.added then
    { st with rightDiffs := st.rightDiffs ++ [⟨.insert, diff.value⟩],
              leftDiffs := st.leftDiffs ++ [⟨.equal, ""⟩],
              additions := st.additions + 1 }
  else if diff.removed then
    { st with leftDiffs := st.leftDiffs ++ [⟨.delete, diff.value⟩],
              rightDiffs := st.rightDiffs ++ [⟨.equal, ""⟩],
              deletions := st.deletions + 1 }
  else
    { st with leftDiffs := st.leftDiffs ++ [⟨.equal, diff.value⟩],
              rightDiffs := st.rightDiffs ++ [⟨.equal, diff.value⟩] }

/-- `compareDocuments` of `part_000:4-30`: run `diffSentences` on the two
texts, walk the changes, and finally set `summary.changes` to
`additions + deletions`.  The external `diffSentences` primitive is a
parameter. -/
def compareDocuments (diffSentences : String → String → List (Change String))
    (leftText rightText : String) : ComparisonResult :=
  let diffs := diffSentences leftText rightText
  let st := diffs.foldl compareStep ⟨[], [], 0, 0⟩
  ⟨st.leftDiffs, st.rightDiffs, ⟨st.additions, st.deletions, st.additions + st.deletions⟩⟩

/-- The left entry contributed by one change in the sentence-level loop. -/
def leftEntry (c : Change String) : DiffResult :=
  if c.added then ⟨.equal, ""⟩
  else if c.removed then ⟨.delete, c.value⟩
  else ⟨.equal, c.value⟩

/-- The right entry contributed by one change in the sentence-level loop. -/
def rightEntry (c : Change String) : DiffResult :=
  if c.added then ⟨.insert, c.value⟩
  else if c.removed then ⟨.equal, ""⟩
  else ⟨.equal, c.value⟩

lemma sentenceStep_foldl (cs : List (Change String)) (st : DiffAcc) :
    cs.foldl compareStep st =
      ⟨st.leftDiffs ++ cs.map leftEntry,
       st.rightDiffs ++ cs.map rightEntry,
       st.additions + (cs.filter fun c => c.added).length,
       st.deletions + (cs.filter fun c => !c.added && c.removed).length⟩ := by
  induction cs generalizing st with
  | nil => simp
  | cons c cs ih =>
    rw [List.foldl_cons, ih]
    cases ha : c.added with
    | true =>
      simp [compareStep, ha, leftEntry, rightEntry, Nat.add_assoc, Nat.add_comm 1]
    | false =>
      cases hr : c.removed with
      | true =>
        simp [compareStep, ha, hr, leftEntry, rightEntry, Nat.add_assoc, Nat.add_comm 1]
      | false =>
        simp [compareStep, ha, hr, leftEntry, rightEntry]

/-- Closed form of the sentence-level `compareDocuments`. -/
lemma sentenceDocuments_eq (diffSentences : String → String → List (Change String))
    (leftText rightText : String) :
    compareDocuments diffSentences leftText rightText =
      ⟨(diffSentences leftText rightText).map leftEntry,
       (diffSentences leftText rightText).map rightEntry,
       ⟨((diffSentences leftText rightText).filter fun c => c.added).length,
        ((diffSentences leftText rightText).filter fun c => !c.added && c.removed).length,
        ((diffSentences leftText rightText).filter fun c => c.added).length +
          ((diffSentences leftText rightText).filter fun c => !c.added && c.removed).length⟩⟩ := by
  simp [compareDocuments, sentenceStep_foldl]

/-- A block produced by `parseHtmlBlocks` (`part_000:122-158`): its diff
key `text` and its original outer HTML. -/
structure Block where
  text : String
  html : String
  deriving DecidableEq

/-- The mutable state of the `diff.forEach` loop of the block-level
`compareHtmlDocuments` (`part_000:62-96`): the two cursors into the block
lists, the two output arrays, and the two summary counters. -/
structure BState where
  leftIndex : Nat
  rightIndex : Nat
  leftDiffs : List DiffResult
  rightDiffs : List DiffResult
  additions : Nat
  deletions : Nat
  deriving DecidableEq

/-- The inner loop of an added part (`part_000:74-79`):
`rightBlocks[rightIndex++]` is read `n` times; reading past the end of the
array yields `undefined` in the source and the subsequent `.html` access
fails, modelled by `none`. -/
def pushInserts (rightBlocks : List Block) : Nat → BState → Option BState
  | 0, st => some st
  | n + 1, st =>
    (rightBlocks[st.rightIndex]?).bind fun block =>
      pushInserts rightBlocks n
        { st with rightIndex := st.rightIndex + 1,
                  rightDiffs := st.rightDiffs ++ [⟨.insert, block.html⟩],
                  leftDiffs := st.leftDiffs ++ [⟨.equal, ""⟩],
                  additions := st.additions + 1 }

/-- The inner loop of a removed part (`part_000:81-86`). -/
def pushDeletes (leftBlocks : List Block) : Nat → BState → Option BState
  | 0, st => some st
  | n + 1, st =>
    (leftBlocks[st.leftIndex]?).bind fun block =>
      pushDeletes leftBlocks n
        { st with leftIndex := st.leftIndex + 1,
                  leftDiffs := st.leftDiffs ++ [⟨.delete, block.html⟩],
                  rightDiffs := st.rightDiffs ++ [⟨.equal, ""⟩],
                  deletions := st.deletions + 1 }

/-- The inner loop of a common part (`part_000:89-94`): one block is
consumed from each side and each side keeps its own original HTML. -/
def pushEquals (leftBlocks rightBlocks : List Block) : Nat → BState → Option BState
  | 0, st => some st
  | n + 1, st =>
    (leftBlocks[st.leftIndex]?).bind fun leftBlock =>
      (rightBlocks[st.rightIndex]?).bind fun rightBlock =>
        pushEquals leftBlocks rightBlocks n
          { st with leftIndex := st.leftIndex + 1,
                    rightIndex := st.rightIndex + 1,
                    leftDiffs := st.leftDiffs ++ [⟨.equal, leftBlock.html⟩],
                    rightDiffs := st.rightDiffs ++ [⟨.equal, rightBlock.html⟩] }

/-- One iteration of the `diff.forEach` loop (`part_000:69-96`): the
branch on `part.added` / `part.removed` and the inner loop over
`part.value.length` elements. -/
def processPart (leftBlocks rightBlocks : List Block) (st : BState)
    (part : Change (List String)) : Option BState :=
  if part.added then pushInserts rightBlocks part.value.length st
  else if part.removed then pushDeletes leftBlocks part.value.length st
  else pushEquals leftBlocks rightBlocks part.value.length st

/-- The block-level `compareHtmlDocuments` (`part_000:52-101`): parse both
inputs into blocks (the DOM parser `parseHtmlBlocks` is a parameter), run
the external `diffArrays` primitive over the two lists of block texts,
replay the diff segments against the block lists, and set
`summary.changes` to `additions + deletions` at the end. -/
def compareHtmlDocuments (parseHtmlBlocks : String → List Block)
    (diffArrays : List String → List String → List (Change (List String)))
    (leftHtml rightHtml : String) : Option ComparisonResult :=
  let leftBlocks := parseHtmlBlocks leftHtml
  let rightBlocks := parseHtmlBlocks rightHtml
  let diff := diffArrays (leftBlocks.map Block.text) (rightBlocks.map Block.text)
  (diff.foldlM (processPart leftBlocks rightBlocks) (⟨0, 0, [], [], 0, 0⟩ : BState)).map fun st =>
    ⟨st.leftDiffs, st.rightDiffs, ⟨st.additions, st.deletions, st.additions + st.deletions⟩⟩

/-- `renderHtmlDifferences` (`part_000:161-172`): content is already HTML
and is emitted unescaped; inserts and deletes are wrapped in `div`
elements carrying the class names. -/
def renderHtmlDifferences (diffs : List DiffResult) : String :=
  String.join (diffs.map fun diff =>
    match diff.type with
    | .insert => "<div class=\"diff-insert\">" ++ diff.content ++ "</div>"
    | .delete => "<div class=\"diff-delete\">" ++ diff.content ++ "</div>"
    | .equal => diff.content)

/-- Number of left-side blocks consumed by a change list: every part that
is not added consumes `value.length` blocks from the left cursor. -/
def countLeft (cs : List (Change (List String))) : Nat :=
  (cs.map fun c => if !c.added then c.value.length else 0).sum

/-- Number of right-side blocks consumed by a change list: every added or
common part consumes `value.length` blocks from the right cursor. -/
def countRight (cs : List (Change (List String))) : Nat :=
  (cs.map fun c => if c.added || !c.removed then c.value.length else 0).sum

/-- Aligned output of the per-segment reconstruction: the left/right entry
pairs in order, plus the two counters. -/
structure SegOut where
  pairs : List (DiffResult × DiffResult)
  additions : Nat
  deletions : Nat
  deriving DecidableEq

/-- Spec-side reconstruction, following the spec's words: the markup is
parsed into block lists, the generic sequence diff runs over those lists,
and output HTML is reconstructed per diff segment — one insert, delete or
equal entry per segment element, each taking the corresponding block's
original HTML, with an empty `equal` entry padding the opposite side of an
insert or delete. -/
def specSegments : List (Change (List String)) → List Block → List Block → SegOut
  | [], _, _ => ⟨[], 0, 0⟩
  | part :: parts, leftBlocks, rightBlocks =>
    let n := part.value.length
    if part.added then
      let rest := specSegments parts leftBlocks (rightBlocks.drop n)
      ⟨(rightBlocks.take n).map (fun b => (⟨.equal, ""⟩, ⟨.insert, b.html⟩)) ++ rest.pairs,
       rest.additions + n, rest.deletions⟩
    else if part.removed then
      let rest := specSegments parts (leftBlocks.drop n) rightBlocks
      ⟨(leftBlocks.take n).map (fun b => (⟨.delete, b.html⟩, ⟨.equal, ""⟩)) ++ rest.pairs,
       rest.additions, rest.deletions + n⟩
    else
      let rest := specSegments parts (leftBlocks.drop n) (rightBlocks.drop n)
      ⟨((leftBlocks.take n).zip (rightBlocks.take n)).map
          (fun p => (⟨.equal, p.1.html⟩, ⟨.equal, p.2.html⟩)) ++ rest.pairs,
       rest.additions, rest.deletions⟩

end Part000

/-- The contract the external `diff` library documents for its text
diffs: the changes segment both inputs — concatenating the values of the
non-added changes yields the left text, concatenating the values of the
non-removed changes yields the right text, and no change is marked both
added and removed. -/
def ValidDiff (cs : List (Change String)) (leftText rightText : String) : Prop :=
  String.join ((cs.filter fun c => !c.added).map Change.value) = leftText ∧
  String.join ((cs.filter fun c => !c.removed).map Change.value) = rightText ∧
  ∀ c ∈ cs, ¬(c.added = true ∧ c.removed = true)

/-- The contract of the external `diffArrays` primitive: the changes
segment both input lists, and no change is marked both added and
removed. -/
def ValidArrayDiff (cs : List (Change (List String))) (ls rs : List String) : Prop :=
  ((cs.filter fun c => !c.added).map Change.value).flatten = ls ∧
  ((cs.filter fun c => !c.removed).map Change.value).flatten = rs ∧
  ∀ c ∈ cs, ¬(c.added = true ∧ c.removed = true)

namespace Part000

lemma pushInserts_eq (rb : List Block) (n : Nat) (st : BState)
    (h : st.rightIndex + n ≤ rb.length) :
    pushInserts rb n st = some
      { leftIndex := st.leftIndex,
        rightIndex := st.rightIndex + n,
        leftDiffs := st.leftDiffs ++
          ((rb.drop st.rightIndex).take n).map (fun _ => (⟨.equal, ""⟩ : DiffResult)),
        rightDiffs := st.rightDiffs ++
          ((rb.drop st.rightIndex).take n).map (fun b => (⟨.insert, b.html⟩ : DiffResult)),
        additions := st.additions + n,
        deletions := st.deletions } := by
  induction n generalizing st with
  | zero => simp [pushInserts]
  | succ n ih =>
    have hlt : st.rightIndex < rb.length := by omega
    rw [pushInserts, List.getElem?_eq_getElem hlt, Option.some_bind]
    rw [ih _ (by simp; omega)]
    have hdt : (rb.drop st.rightIndex).take (n + 1) =
        rb[st.rightIndex] :: ((rb.drop (st.rightIndex + 1)).take n) := by
      rw [List.drop_eq_getElem_cons hlt, List.take_succ_cons]
    simp [hdt, List.append_assoc, Nat.add_assoc, Nat.add_comm 1]

lemma pushDeletes_eq (lb : List Block) (n : Nat) (st : BState)
    (h : st.leftIndex + n ≤ lb.length) :
    pushDeletes lb n st = some
      { leftIndex := st.leftIndex + n,
        rightIndex := st.rightIndex,
        leftDiffs := st.leftDiffs ++
          ((lb.drop st.leftIndex).take n).map (fun b => (⟨.delete, b.html⟩ : DiffResult)),
        rightDiffs := st.rightDiffs ++
          ((lb.drop st.leftIndex).take n).map (fun _ => (⟨.equal, ""⟩ : DiffResult)),
        additions := st.additions,
        deletions := st.deletions + n } := by
  induction n generalizing st with
  | zero => simp [pushDeletes]
  | succ n ih =>
    have hlt : st.leftIndex < lb.length := by omega
    rw [pushDeletes, List.getElem?_eq_getElem hlt, Option.some_bind]
    rw [ih _ (by simp; omega)]
    have hdt : (lb.drop st.leftIndex).take (n + 1) =
        lb[st.leftIndex] :: ((lb.drop (st.leftIndex + 1)).take n) := by
      rw [List.drop_eq_getElem_cons hlt, List.take_succ_cons]
    simp [hdt, List.append_assoc, Nat.add_assoc, Nat.add_comm 1]

lemma pushEquals_eq (lb rb : List Block) (n : Nat) (st : BState)
    (hl : st.leftIndex + n ≤ lb.length) (hr : st.rightIndex + n ≤ rb.length) :
    pushEquals lb rb n st = some
      { leftIndex := st.leftIndex + n,
        rightIndex := st.rightIndex + n,
        leftDiffs := st.leftDiffs ++
          ((lb.drop st.leftIndex).take n).map (fun b => (⟨.equal, b.html⟩ : DiffResult)),
        rightDiffs := st.rightDiffs ++
          ((rb.drop st.rightIndex).take n).map (fun b => (⟨.equal, b.html⟩ : DiffResult)),
        additions := st.additions,
        deletions := st.deletions } := by
  induction n generalizing st with
  | zero => simp [pushEquals]
  | succ n ih =>
    have hltl : st.leftIndex < lb.length := by omega
    have hltr : st.rightIndex < rb.length := by omega
    rw [pushEquals, List.getElem?_eq_getElem hltl, List.getElem?_eq_getElem hltr,
      Option.some_bind, Option.some_bind]
    rw [ih _ (by simp; omega) (by simp; omega)]
    have hdtl : (lb.drop st.leftIndex).take (n + 1) =
        lb[st.leftIndex] :: ((lb.drop (st.leftIndex + 1)).take n) := by
      rw [List.drop_eq_getElem_cons hltl, List.take_succ_cons]
    have hdtr : (rb.drop st.rightIndex).take (n + 1) =
        rb[st.rightIndex] :: ((rb.drop (st.rightIndex + 1)).take n) := by
      rw [List.drop_eq_getElem_cons hltr, List.take_succ_cons]
    simp [hdtl, hdtr, List.append_assoc, Nat.add_assoc, Nat.add_comm 1]

end Part000

namespace Part000

lemma foldlM_processPart (lb rb : List Block) (cs : List (Change (List String))) :
    ∀ st : BState,
    st.leftIndex + countLeft cs ≤ lb.length →
    st.rightIndex + countRight cs ≤ rb.length →
    cs.foldlM (processPart lb rb) st = some
      { leftIndex := st.leftIndex + countLeft cs,
        rightIndex := st.rightIndex + countRight cs,
        leftDiffs := st.leftDiffs ++
          ((specSegments cs (lb.drop st.leftIndex) (rb.drop st.rightIndex)).pairs.map Prod.fst),
        rightDiffs := st.rightDiffs ++
          ((specSegments cs (lb.drop st.leftIndex) (rb.drop st.rightIndex)).pairs.map Prod.snd),
        additions := st.additions +
          (specSegments cs (lb.drop st.leftIndex) (rb.drop st.rightIndex)).additions,
        deletions := st.deletions +
          (specSegments cs (lb.drop st.leftIndex) (rb.drop st.rightIndex)).deletions } := by
  induction cs with
  | nil =>
    intro st hL hR
    simp [countLeft, countRight, specSegments]
  | cons c cs ih =>
    intro st hL hR
    have hcl : countLeft (c :: cs) = (if !c.added then c.value.length else 0) + countLeft cs := by
      simp [countLeft]
    have hcr : countRight (c :: cs) =
        (if c.added || !c.removed then c.value.length else 0) + countRight cs := by
      simp [countRight]
    rw [List.foldlM_cons]
    by_cases ha : c.added = true
    · -- added part: consume from the right cursor only
      have hn : st.rightIndex + c.value.length ≤ rb.length := by
        rw [hcr] at hR; simp [ha] at hR; omega
      have hstep : processPart lb rb st c = pushInserts rb c.value.length st := by
        simp [processPart, ha]
      rw [hstep, pushInserts_eq rb c.value.length st hn]
      simp only [Option.bind_eq_bind, Option.some_bind]
      rw [hcl] at hL
      rw [hcr] at hR
      simp [ha] at hL hR
      rw [ih _ (by simpa using hL) (by simp; omega)]
      have hdd : (rb.drop st.rightIndex).drop c.value.length =
          rb.drop (st.rightIndex + c.value.length) := by
        rw [List.drop_drop]
      simp [specSegments, ha, hdd, hcl, hcr, List.map_map, Function.comp_def,
        List.append_assoc, Nat.add_assoc, Nat.add_comm c.value.length]
    · by_cases hr : c.removed = true
      · -- removed part: consume from the left cursor only
        have hn : st.leftIndex + c.value.length ≤ lb.length := by
          rw [hcl] at hL; simp [ha] at hL; omega
        have hstep : processPart lb rb st c = pushDeletes lb c.value.length st := by
          simp [processPart, ha, hr]
        rw [hstep, pushDeletes_eq lb c.value.length st hn]
        simp only [Option.bind_eq_bind, Option.some_bind]
        rw [hcl] at hL
        rw [hcr] at hR
        simp [ha, hr] at hL hR
        rw [ih _ (by simp; omega) (by simpa using hR)]
        have hdd : (lb.drop st.leftIndex).drop c.value.length =
            lb.drop (st.leftIndex + c.value.length) := by
          rw [List.drop_drop]
        simp [specSegments, ha, hr, hdd, hcl, hcr, List.map_map, Function.comp_def,
          List.append_assoc, Nat.add_assoc, Nat.add_comm c.value.length]
      · -- common part: consume from both cursors
        have hnl : st.leftIndex + c.value.length ≤ lb.length := by
          rw [hcl] at hL; simp [ha] at hL; omega
        have hnr : st.rightIndex + c.value.length ≤ rb.length := by
          rw [hcr] at hR; simp [ha, hr] at hR; omega
        have hstep : processPart lb rb st c = pushEquals lb rb c.value.length st := by
          simp [processPart, ha, hr]
        rw [hstep, pushEquals_eq lb rb c.value.length st hnl hnr]
        simp only [Option.bind_eq_bind, Option.some_bind]
        rw [hcl] at hL
        rw [hcr] at hR
        simp [ha, hr] at hL hR
        rw [ih _ (by simp; omega) (by simp; omega)]
        have hddl : (lb.drop st.leftIndex).drop c.value.length =
            lb.drop (st.leftIndex + c.value.length) := by
          rw [List.drop_drop]
        have hddr : (rb.drop st.rightIndex).drop c.value.length =
            rb.drop (st.rightIndex + c.value.length) := by
          rw [List.drop_drop]
        have hzl : (((lb.drop st.leftIndex).take c.value.length).zip
              ((rb.drop st.rightIndex).take c.value.length)).map
              (fun p => (⟨.equal, p.1.html⟩ : DiffResult)) =
            ((lb.drop st.leftIndex).take c.value.length).map
              (fun b => (⟨.equal, b.html⟩ : DiffResult)) := by
          rw [show (fun p : Block × Block => (⟨.equal, p.1.html⟩ : DiffResult)) =
              (fun b : Block => (⟨.equal, b.html⟩ : DiffResult)) ∘ Prod.fst from rfl]
          rw [← List.map_map, List.map_fst_zip]
          simp [List.length_take, List.length_drop]
          omega
        have hzr : (((lb.drop st.leftIndex).take c.value.length).zip
              ((rb.drop st.rightIndex).take c.value.length)).map
              (fun p => (⟨.equal, p.2.html⟩ : DiffResult)) =
            ((rb.drop st.rightIndex).take c.value.length).map
              (fun b => (⟨.equal, b.html⟩ : DiffResult)) := by
          rw [show (fun p : Block × Block => (⟨.equal, p.2.html⟩ : DiffResult)) =
              (fun b : Block => (⟨.equal, b.html⟩ : DiffResult)) ∘ Prod.snd from rfl]
          rw [← List.map_map, List.map_snd_zip]
          simp [List.length_take, List.length_drop]
          omega
        simp [specSegments, ha, hr, hddl, hddr, hcl, hcr, List.map_map, Function.comp_def,
          hzl, hzr, List.append_assoc, Nat.add_assoc, Nat.add_comm c.value.length]

end Part000

namespace Part000

lemma filter_sum_eq (p : Change (List String) → Bool) (cs : List (Change (List String))) :
    (cs.map fun c => if p c then c.value.length else 0).sum =
      (((cs.filter p).map Change.value).map List.length).sum := by
  induction cs with
  | nil => simp
  | cons c cs ih => by_cases h : p c <;> simp [h, ih]

/-- Under the `diffArrays` contract, the loop consumes exactly the whole of
both block lists. -/
lemma validArrayDiff_counts {cs : List (Change (List String))} {lb rb : List Block}
    (h : ValidArrayDiff cs (lb.map Block.text) (rb.map Block.text)) :
    countLeft cs = lb.length ∧ countRight cs = rb.length := by
  obtain ⟨h1, h2, h3⟩ := h
  constructor
  · have hlen := congrArg List.length h1
    rw [List.length_flatten] at hlen
    simp only [List.length_map] at hlen
    rw [countLeft, filter_sum_eq]
    simpa using hlen
  · have hfe : (cs.filter fun c => !c.removed) = cs.filter fun c => c.added || !c.removed := by
      apply List.filter_congr
      intro c hc
      cases hadd : c.added with
      | true =>
        cases hrem : c.removed with
        | true => exact absurd ⟨hadd, hrem⟩ (h3 c hc)
        | false => simp [hrem]
      | false => simp [hadd]
    have hlen := congrArg List.length h2
    rw [List.length_flatten] at hlen
    simp only [List.length_map] at hlen
    rw [hfe] at hlen
    rw [countRight, filter_sum_eq]
    simpa using hlen

/-- Refinement of the block-level `compareHtmlDocuments` against the
spec-side per-segment reconstruction: under the `diffArrays` contract the
index-chasing loop of the source computes exactly the segment-by-segment
output. -/
lemma compareHtmlDocuments_eq_spec (parseHtmlBlocks : String → List Block)
    (diffArrays : List String → List String → List (Change (List String)))
    (leftHtml rightHtml : String)
    (h : ValidArrayDiff
      (diffArrays ((parseHtmlBlocks leftHtml).map Block.text) ((parseHtmlBlocks rightHtml).map Block.text))
      ((parseHtmlBlocks leftHtml).map Block.text) ((parseHtmlBlocks rightHtml).map Block.text)) :
    compareHtmlDocuments parseHtmlBlocks diffArrays leftHtml rightHtml = some
      (let S := specSegments
        (diffArrays ((parseHtmlBlocks leftHtml).map Block.text) ((parseHtmlBlocks rightHtml).map Block.text))
        (parseHtmlBlocks leftHtml) (parseHtmlBlocks rightHtml)
       ⟨S.pairs.map Prod.fst, S.pairs.map Prod.snd,
        ⟨S.additions, S.deletions, S.additions + S.deletions⟩⟩) := by
  obtain ⟨hcl, hcr⟩ := validArrayDiff_counts h
  simp only [compareHtmlDocuments]
  rw [foldlM_processPart _ _ _ _ (by simpa using hcl.le) (by simpa using hcr.le)]
  simp

end Part000


lemma strFoldlAppend (l : List String) :
    ∀ s : String, List.foldl (fun r t => r ++ t) s l = s ++ List.foldl (fun r t => r ++ t) "" l := by
  induction l with
  | nil => intro s; simp
  | cons x l ih =>
    intro s
    rw [List.foldl_cons, List.foldl_cons, ih (s ++ x), ih ("" ++ x)]
    simp [String.append_assoc]

lemma strJoin_cons (a : String) (l : List String) :
    String.join (a :: l) = a ++ String.join l := by
  simp only [String.join, List.foldl_cons]
  rw [strFoldlAppend l ("" ++ a)]
  simp

lemma strJoin_append (l₁ l₂ : List String) :
    String.join (l₁ ++ l₂) = String.join l₁ ++ String.join l₂ := by
  induction l₁ with
  | nil => simp [String.join]
  | cons a l ih => simp [strJoin_cons, ih, String.append_assoc]

/-- Under the no-double-flag part of the library contract, the changes
that are not removed are exactly the ones the loops route to the right
side (added or common). -/
lemma filter_not_removed_eq {α : Type} (cs : List (Change α))
    (h3 : ∀ c ∈ cs, ¬(c.added = true ∧ c.removed = true)) :
    (cs.filter fun c => !c.removed) = cs.filter fun c => c.added || !c.removed := by
  apply List.filter_congr
  intro c hc
  cases hadd : c.added with
  | true =>
    cases hrem : c.removed with
    | true => exact absurd ⟨hadd, hrem⟩ (h3 c hc)
    | false => simp [hrem]
  | false => simp [hadd]

namespace Part000

lemma countLeft_cons (c : Change (List String)) (cs : List (Change (List String))) :
    countLeft (c :: cs) = (if !c.added then c.value.length else 0) + countLeft cs := by
  simp [countLeft]

lemma countRight_cons (c : Change (List String)) (cs : List (Change (List String))) :
    countRight (c :: cs) = (if c.added || !c.removed then c.value.length else 0) + countRight cs := by
  simp [countRight]

lemma filter_ne_all_empty {l : List String} (h : ∀ s ∈ l, s = "") :
    (l.filter fun s => s ≠ "") = [] := by
  induction l with
  | nil => simp
  | cons a l ih =>
    have ha := h a (List.mem_cons_self a l)
    simpa [ha] using ih fun s hs => h s (List.mem_cons_of_mem a hs)

/-- The left components of the reconstruction consume exactly the left
block list, in order and with each block's original HTML unchanged; the
padding entries are the only empty contents. -/
lemma specSegments_fst_contents (cs : List (Change (List String))) :
    ∀ lb rb : List Block,
    countLeft cs = lb.length → countRight cs = rb.length →
    (∀ b ∈ lb, b.html ≠ "") →
    (((specSegments cs lb rb).pairs.map fun p => p.1.content).filter fun s => s ≠ "")
      = lb.map Block.html := by
  induction cs with
  | nil =>
    intro lb rb hl hr hne
    rw [countLeft] at hl
    simp only [List.map_nil, List.sum_nil] at hl
    have hnil : lb = [] := List.eq_nil_of_length_eq_zero hl.symm
    subst hnil
    simp [specSegments]
  | cons c cs ih =>
    intro lb rb hl hr hne
    rw [countLeft_cons] at hl
    rw [countRight_cons] at hr
    by_cases ha : c.added = true
    · simp [ha] at hl hr
      have ih' := ih lb (rb.drop c.value.length) hl (by simp; omega) hne
      have hconst : ((List.take c.value.length (rb.map fun _ => ("" : String))).filter
          fun s => s ≠ "") = [] := by
        apply filter_ne_all_empty
        intro s hs
        obtain ⟨b, hb, rfl⟩ := List.mem_map.mp (List.mem_of_mem_take hs)
        rfl
      simp only [ne_eq, decide_not] at ih' hconst
      simp [specSegments, ha, Function.comp_def, List.filter_append, hconst, ih']
    · by_cases hrm : c.removed = true
      · simp [ha, hrm] at hl hr
        have ih' := ih (lb.drop c.value.length) rb (by simp; omega) hr
          (fun b hb => hne b (List.mem_of_mem_drop hb))
        have hkeep : ((List.take c.value.length (lb.map Block.html)).filter fun s => s ≠ "")
            = List.take c.value.length (lb.map Block.html) := by
          rw [List.filter_eq_self]
          intro s hs
          obtain ⟨b, hb, rfl⟩ := List.mem_map.mp (List.mem_of_mem_take hs)
          simpa using hne b hb
        have heta : (fun x : Block => x.html) = Block.html := rfl
        simp only [ne_eq, decide_not] at ih' hkeep
        simp [specSegments, ha, hrm, Function.comp_def, List.filter_append, ih', hkeep, heta,
          List.take_append_drop]
      · simp [ha, hrm] at hl hr
        have hnl : c.value.length ≤ lb.length := by omega
        have hnr : c.value.length ≤ rb.length := by omega
        have ih' := ih (lb.drop c.value.length) (rb.drop c.value.length)
          (by simp; omega) (by simp; omega)
          (fun b hb => hne b (List.mem_of_mem_drop hb))
        have hz : (((lb.take c.value.length).zip (rb.take c.value.length)).map fun p => p.1.html)
            = (lb.take c.value.length).map Block.html := by
          rw [show (fun p : Block × Block => p.1.html) = Block.html ∘ Prod.fst from rfl]
          rw [← List.map_map, List.map_fst_zip]
          simp [List.length_take]
          omega
        have hkeep : ((List.take c.value.length (lb.map Block.html)).filter fun s => s ≠ "")
            = List.take c.value.length (lb.map Block.html) := by
          rw [List.filter_eq_self]
          intro s hs
          obtain ⟨b, hb, rfl⟩ := List.mem_map.mp (List.mem_of_mem_take hs)
          simpa using hne b hb
        have heta : (fun x : Block => x.html) = Block.html := rfl
        simp only [ne_eq, decide_not] at ih' hkeep
        simp [specSegments, ha, hrm, Function.comp_def, List.filter_append, ih', hz, hkeep, heta,
          List.take_append_drop]

end Part000

namespace Part000

/-- The right components of the reconstruction consume exactly the right
block list, in order and with each block's original HTML unchanged. -/
lemma specSegments_snd_contents (cs : List (Change (List String))) :
    ∀ lb rb : List Block,
    countLeft cs = lb.length → countRight cs = rb.length →
    (∀ b ∈ rb, b.html ≠ "") →
    (((specSegments cs lb rb).pairs.map fun p => p.2.content).filter fun s => s ≠ "")
      = rb.map Block.html := by
  induction cs with
  | nil =>
    intro lb rb hl hr hne
    rw [countRight] at hr
    simp only [List.map_nil, List.sum_nil] at hr
    have hnil : rb = [] := List.eq_nil_of_length_eq_zero hr.symm
    subst hnil
    simp [specSegments]
  | cons c cs ih =>
    intro lb rb hl hr hne
    rw [countLeft_cons] at hl
    rw [countRight_cons] at hr
    by_cases ha : c.added = true
    · simp [ha] at hl hr
      have ih' := ih lb (rb.drop c.value.length) hl (by simp; omega)
        (fun b hb => hne b (List.mem_of_mem_drop hb))
      have hkeep : ((List.take c.value.length (rb.map Block.html)).filter fun s => s ≠ "")
          = List.take c.value.length (rb.map Block.html) := by
        rw [List.filter_eq_self]
        intro s hs
        obtain ⟨b, hb, rfl⟩ := List.mem_map.mp (List.mem_of_mem_take hs)
        simpa using hne b hb
      have heta : (fun x : Block => x.html) = Block.html := rfl
      simp only [ne_eq, decide_not] at ih' hkeep
      simp [specSegments, ha, Function.comp_def, List.filter_append, ih', hkeep, heta,
        List.take_append_drop]
    · by_cases hrm : c.removed = true
      · simp [ha, hrm] at hl hr
        have ih' := ih (lb.drop c.value.length) rb (by simp; omega) hr hne
        have hconst : ((List.take c.value.length (lb.map fun _ => ("" : String))).filter
            fun s => s ≠ "") = [] := by
          apply filter_ne_all_empty
          intro s hs
          obtain ⟨b, hb, rfl⟩ := List.mem_map.mp (List.mem_of_mem_take hs)
          rfl
        simp only [ne_eq, decide_not] at ih' hconst
        simp [specSegments, ha, hrm, Function.comp_def, List.filter_append, hconst, ih']
      · simp [ha, hrm] at hl hr
        have hnl : c.value.length ≤ lb.length := by omega
        have hnr : c.value.length ≤ rb.length := by omega
        have ih' := ih (lb.drop c.value.length) (rb.drop c.value.length)
          (by simp; omega) (by simp; omega)
          (fun b hb => hne b (List.mem_of_mem_drop hb))
        have hz : (((lb.take c.value.length).zip (rb.take c.value.length)).map fun p => p.2.html)
            = (rb.take c.value.length).map Block.html := by
          rw [show (fun p : Block × Block => p.2.html) = Block.html ∘ Prod.snd from rfl]
          rw [← List.map_map, List.map_snd_zip]
          simp [List.length_take]
          omega
        have hkeep : ((List.take c.value.length (rb.map Block.html)).filter fun s => s ≠ "")
            = List.take c.value.length (rb.map Block.html) := by
          rw [List.filter_eq_self]
          intro s hs
          obtain ⟨b, hb, rfl⟩ := List.mem_map.mp (List.mem_of_mem_take hs)
          simpa using hne b hb
        have heta : (fun x : Block => x.html) = Block.html := rfl
        simp only [ne_eq, decide_not] at ih' hkeep
        simp [specSegments, ha, hrm, Function.comp_def, List.filter_append, ih', hz, hkeep, heta,
          List.take_append_drop]

/-- Every aligned pair the reconstruction emits pads an insert with an
empty equal entry on the left and a delete with an empty equal entry on
the right. -/
lemma specSegments_pairs_padding (cs : List (Change (List String))) :
    ∀ lb rb : List Block, ∀ p ∈ (specSegments cs lb rb).pairs,
      (p.2.type = DiffType.insert → p.1 = ⟨.equal, ""⟩) ∧
      (p.1.type = DiffType.delete → p.2 = ⟨.equal, ""⟩) := by
  induction cs with
  | nil =>
    intro lb rb p hp
    simp [specSegments] at hp
  | cons c cs ih =>
    intro lb rb p hp
    by_cases ha : c.added = true
    · simp only [specSegments, ha, if_true, List.mem_append, List.mem_map] at hp
      rcases hp with ⟨b, _, rfl⟩ | hp
      · exact ⟨fun _ => rfl, fun h => by simp at h⟩
      · exact ih lb (rb.drop c.value.length) p hp
    · by_cases hrm : c.removed = true
      · simp only [specSegments, ha, hrm, Bool.false_eq_true, if_false, if_true,
          List.mem_append, List.mem_map] at hp
        rcases hp with ⟨b, _, rfl⟩ | hp
        · exact ⟨fun h => by simp at h, fun _ => rfl⟩
        · exact ih (lb.drop c.value.length) rb p hp
      · simp only [specSegments, ha, hrm, Bool.false_eq_true, if_false,
          List.mem_append, List.mem_map] at hp
        rcases hp with ⟨b, _, rfl⟩ | hp
        · exact ⟨fun h => by simp at h, fun h => by simp at h⟩
        · exact ih (lb.drop c.value.length) (rb.drop c.value.length) p hp

end Part000

namespace TextComparison

lemma compareElementText_left_length
    (diffChars : String → String → CharDiffOptions → List (Change String))
    (leftEl rightEl : ParsedElement) :
    (compareElementText diffChars leftEl rightEl).left.length = 1 ∧
    (compareElementText diffChars leftEl rightEl).right.length = 1 := by
  simp [compareElementText]

/-- The element-wise loop pushes one entry on each side per position. -/
lemma compareElements_length
    (diffChars : String → String → CharDiffOptions → List (Change String)) :
    ∀ ls rs : List ParsedElement,
    (compareElements diffChars ls rs).leftDiffs.length =
      (compareElements diffChars ls rs).rightDiffs.length := by
  intro ls
  induction ls with
  | nil =>
    intro rs
    have hpad : ∀ rs' : List ParsedElement,
        (padInserts rs').leftDiffs.length = (padInserts rs').rightDiffs.length := by
      intro rs'
      induction rs' with
      | nil => simp [padInserts]
      | cons r rs' ihr => simp [padInserts, ihr]
    simpa [compareElements] using hpad rs
  | cons l ls ih =>
    intro rs
    cases rs with
    | nil => simpa [compareElements] using ih []
    | cons r rs =>
      by_cases h : l.tag = r.tag
      · simp [compareElements, h, compareElementText, ih rs]
      · simp [compareElements, h, ih rs]

/-- `compareWithWhitespace` consults the character diff only at pairs of
lines that differ; agreement there fixes the whole walk. -/
lemma walkLines_congr (d d' : String → String → CharDiffOptions → List (Change String)) :
    ∀ ls rs : List String,
    (∀ a ∈ ls, ∀ b ∈ rs, a ≠ b → d a b ⟨false⟩ = d' a b ⟨false⟩) →
    walkLines d ls rs = walkLines d' ls rs := by
  intro ls
  induction ls with
  | nil =>
    intro rs h
    simp [walkLines]
  | cons l ls ih =>
    intro rs h
    cases rs with
    | nil =>
      have hrec := ih [] fun a _ b hb => absurd hb (List.not_mem_nil b)
      simp [walkLines, hrec]
    | cons r rs =>
      have hrec := ih rs fun a ha b hb hne =>
        h a (List.mem_cons_of_mem l ha) b (List.mem_cons_of_mem r hb) hne
      by_cases hlr : l = r
      · subst hlr
        simp [walkLines, hrec]
      · have hd := h l (List.mem_cons_self l ls) r (List.mem_cons_self r rs) hlr
        simp [walkLines, hlr, hrec, hd]

end TextComparison

namespace TextComparison

/-- The opening tag `reconstructElementHtml` rebuilds for a non-text,
non-self-closing element: the original tag name and every original
attribute, each rendered as `name="escapeHtml(value)"`. -/
def openTag (element : ParsedElement) : String :=
  "<" ++ element.tag ++
    (if attrsText element.attributes = "" then "" else " " ++ attrsText element.attributes) ++ ">"

/-- The closing tag `reconstructElementHtml` rebuilds: the original tag
name again. -/
def closeTag (element : ParsedElement) : String :=
  "</" ++ element.tag ++ ">"

end TextComparison

/-- A concrete stand-in for the external word diff, used to evaluate the
embedding on closed inputs: equal texts give one common change, different
texts a removal followed by an addition (a valid diff in the sense of
`ValidDiff`). -/
def sampleWordDiff (a b : String) (_ : WordDiffOptions) : List (Change String) :=
  if a = b then [⟨false, false, a⟩] else [⟨false, true, a⟩, ⟨true, false, b⟩]

/-- A concrete stand-in for the external character diff, shaped like
`sampleWordDiff`. -/
def sampleCharDiff (a b : String) (_ : CharDiffOptions) : List (Change String) :=
  if a = b then [⟨false, false, a⟩] else [⟨false, true, a⟩, ⟨true, false, b⟩]

/-- A concrete stand-in for the external sentence diff, shaped like
`sampleWordDiff`. -/
def sampleSentenceDiff (a b : String) : List (Change String) :=
  if a = b then [⟨false, false, a⟩] else [⟨false, true, a⟩, ⟨true, false, b⟩]

/-- A concrete stand-in for the DOM block parser on the two documents
`<p>x</p><p>y</p>` and `<p>y</p>`. -/
def sampleBlocks (s : String) : List Part000.Block :=
  if s = "<p>x</p><p>y</p>" then [⟨"x", "<p>x</p>"⟩, ⟨"y", "<p>y</p>"⟩]
  else if s = "<p>y</p>" then [⟨"y", "<p>y</p>"⟩]
  else []

/-- A concrete stand-in for the external `diffArrays` on the block texts
of `sampleBlocks`: the common suffix `y` is aligned and `x` removed. -/
def sampleArrayDiff (ls rs : List String) : List (Change (List String)) :=
  if ls = rs then [⟨false, false, ls⟩]
  else [⟨false, true, ["x"]⟩, ⟨false, false, ["y"]⟩]

/-- A concrete stand-in for the DOM element parser on small documents. -/
def sampleElements (s : String) : List ParsedElement :=
  if s = "<p>x</p><p>y</p>" then
    [.mk "p" "<p>x</p>" "x" [] [], .mk "p" "<p>y</p>" "y" [] []]
  else if s = "<p>y</p>" then [.mk "p" "<p>y</p>" "y" [] []]
  else if s = "<p>x</p>" then [.mk "p" "<p>x</p>" "x" [] []]
  else if s = "<h1>y</h1>" then [.mk "h1" "<h1>y</h1>" "y" [] []]
  else []

/-- The value the block-level comparison computes on the `sampleBlocks`
documents. -/
def sampleBlockResult : ComparisonResult :=
  ⟨[⟨.delete, "<p>x</p>"⟩, ⟨.equal, "<p>y</p>"⟩],
   [⟨.equal, ""⟩, ⟨.equal, "<p>y</p>"⟩],
   ⟨0, 1, 1⟩⟩

/-- C1 counterexample: the element-wise `compareHtmlDocuments` of
`textComparison.ts` does not reconstruct output per diff segment.  On the
documents `<p>x</p><p>y</p>` and `<p>y</p>` a valid sequence diff of the
parsed lists removes the first block and aligns the common `y` block, and
the per-segment reconstruction therefore keeps `<p>y</p>` unchanged on
both sides; the element-wise variant instead aligns the two lists by
position, rewrites the `y`/`x` pair and deletes the left `y` block, so its
output differs from the per-segment reconstruction. -/
theorem c1_positional_variant_counterexample :
    ValidArrayDiff
      (sampleArrayDiff ((sampleBlocks "<p>x</p><p>y</p>").map Part000.Block.text)
        ((sampleBlocks "<p>y</p>").map Part000.Block.text))
      ((sampleBlocks "<p>x</p><p>y</p>").map Part000.Block.text)
      ((sampleBlocks "<p>y</p>").map Part000.Block.text) ∧
    TextComparison.compareHtmlDocuments sampleElements sampleCharDiff
        "<p>x</p><p>y</p>" "<p>y</p>" ≠
      (let S := Part000.specSegments
          (sampleArrayDiff ((sampleBlocks "<p>x</p><p>y</p>").map Part000.Block.text)
            ((sampleBlocks "<p>y</p>").map Part000.Block.text))
          (sampleBlocks "<p>x</p><p>y</p>") (sampleBlocks "<p>y</p>")
       ⟨S.pairs.map Prod.fst, S.pairs.map Prod.snd,
        ⟨S.additions, S.deletions, S.additions + S.deletions⟩⟩) :=
  ⟨⟨by decide, by decide, by decide⟩, by decide⟩

/-- C1 (amended): the block-level `compareHtmlDocuments` of `part_000`
proceeds exactly by parsing each input into a block list, running the
generic sequence diff over the two lists of block texts, and
reconstructing output HTML per diff segment, one insert/delete/equal entry
per segment element with an empty equal entry padding the opposite side;
the element-wise variant of `textComparison.ts` instead aligns parsed
nodes positionally by index. -/
theorem c1_block_compare_refines_segment_spec
    (parseHtmlBlocks : String → List Part000.Block)
    (diffArrays : List String → List String → List (Change (List String)))
    (leftHtml rightHtml : String)
    (h : ValidArrayDiff
      (diffArrays ((parseHtmlBlocks leftHtml).map Part000.Block.text)
        ((parseHtmlBlocks rightHtml).map Part000.Block.text))
      ((parseHtmlBlocks leftHtml).map Part000.Block.text)
      ((parseHtmlBlocks rightHtml).map Part000.Block.text)) :
    Part000.compareHtmlDocuments parseHtmlBlocks diffArrays leftHtml rightHtml = some
      (let S := Part000.specSegments
          (diffArrays ((parseHtmlBlocks leftHtml).map Part000.Block.text)
            ((parseHtmlBlocks rightHtml).map Part000.Block.text))
          (parseHtmlBlocks leftHtml) (parseHtmlBlocks rightHtml)
       ⟨S.pairs.map Prod.fst, S.pairs.map Prod.snd,
        ⟨S.additions, S.deletions, S.additions + S.deletions⟩⟩) :=
  Part000.compareHtmlDocuments_eq_spec parseHtmlBlocks diffArrays leftHtml rightHtml h

/-- C1 witness: the refinement evaluated on the `sampleBlocks`
documents. -/
theorem c1_block_compare_refines_segment_spec_witness :
    Part000.compareHtmlDocuments sampleBlocks sampleArrayDiff "<p>x</p><p>y</p>" "<p>y</p>" = some
      (let S := Part000.specSegments
          (sampleArrayDiff ((sampleBlocks "<p>x</p><p>y</p>").map Part000.Block.text)
            ((sampleBlocks "<p>y</p>").map Part000.Block.text))
          (sampleBlocks "<p>x</p><p>y</p>") (sampleBlocks "<p>y</p>")
       ⟨S.pairs.map Prod.fst, S.pairs.map Prod.snd,
        ⟨S.additions, S.deletions, S.additions + S.deletions⟩⟩) :=
  c1_block_compare_refines_segment_spec sampleBlocks sampleArrayDiff "<p>x</p><p>y</p>" "<p>y</p>"
    ⟨by decide, by decide, by decide⟩

/-- C2 counterexample: the reconstructed HTML does not carry the attribute
value verbatim — the value is passed through `escapeHtml`, so an attribute
value containing `&` is emitted as `&amp;` and the emitted attribute text
differs from the original value. -/
theorem c2_attribute_value_escaped_counterexample :
    ((TextComparison.compareElementText sampleCharDiff
        (.mk "p" "<p title=\"a&amp;b\">x</p>" "x" [("title", "a&b")] [])
        (.mk "p" "<p title=\"a&amp;b\">y</p>" "y" [("title", "a&b")] [])).left.map
        DiffResult.content =
      ["<p title=\"a&amp;b\"><span class=\"diff-delete\">x</span></p>"]) ∧
    (["<p title=\"a&amp;b\"><span class=\"diff-delete\">x</span></p>"] : List String) ≠
      ["<p title=\"a&b\"><span class=\"diff-delete\">x</span></p>"] :=
  ⟨by decide, by decide⟩

/-- C2 (amended): when two parsed elements with the same tag are compared,
each side's reconstructed entry is exactly the original opening tag (tag
name plus every original attribute, each rendered as
`name="escapeHtml(value)"`, so values without markup characters are
verbatim), then the highlighted text, then the original closing tag — the
tag and attributes come only from the original element and only the text
between the tags is replaced. -/
theorem c2_reconstruct_preserves_tag_and_attributes
    (diffChars : String → String → CharDiffOptions → List (Change String))
    (leftEl rightEl : ParsedElement)
    (htag : leftEl.tag = rightEl.tag)
    (htext : leftEl.tag ≠ "text")
    (hself : leftEl.tag ∉ TextComparison.selfClosing) :
    ((TextComparison.compareElementText diffChars leftEl rightEl).left.map DiffResult.content =
      [TextComparison.openTag leftEl ++
        (TextComparison.charHighlight (diffChars leftEl.text rightEl.text ⟨false⟩)).leftHtml ++
        TextComparison.closeTag leftEl]) ∧
    ((TextComparison.compareElementText diffChars leftEl rightEl).right.map DiffResult.content =
      [TextComparison.openTag rightEl ++
        (TextComparison.charHighlight (diffChars leftEl.text rightEl.text ⟨false⟩)).rightHtml ++
        TextComparison.closeTag rightEl]) := by
  have htext' : rightEl.tag ≠ "text" := htag ▸ htext
  have hself' : rightEl.tag ∉ TextComparison.selfClosing := htag ▸ hself
  constructor
  · simp [TextComparison.compareElementText, TextComparison.reconstructElementHtml,
      TextComparison.openTag, TextComparison.closeTag, htext, hself, String.append_assoc]
  · simp [TextComparison.compareElementText, TextComparison.reconstructElementHtml,
      TextComparison.openTag, TextComparison.closeTag, htext', hself', String.append_assoc]

/-- C2 witness: the preservation theorem evaluated on two concrete `p`
elements. -/
theorem c2_reconstruct_preserves_tag_and_attributes_witness :
    ((TextComparison.compareElementText sampleCharDiff
        (.mk "p" "<p>x</p>" "x" [] []) (.mk "p" "<p>y</p>" "y" [] [])).left.map
        DiffResult.content =
      [TextComparison.openTag (.mk "p" "<p>x</p>" "x" [] []) ++
        (TextComparison.charHighlight (sampleCharDiff "x" "y" ⟨false⟩)).leftHtml ++
        TextComparison.closeTag (.mk "p" "<p>x</p>" "x" [] [])]) ∧
    ((TextComparison.compareElementText sampleCharDiff
        (.mk "p" "<p>x</p>" "x" [] []) (.mk "p" "<p>y</p>" "y" [] [])).right.map
        DiffResult.content =
      [TextComparison.openTag (.mk "p" "<p>y</p>" "y" [] []) ++
        (TextComparison.charHighlight (sampleCharDiff "x" "y" ⟨false⟩)).rightHtml ++
        TextComparison.closeTag (.mk "p" "<p>y</p>" "y" [] [])]) :=
  c2_reconstruct_preserves_tag_and_attributes sampleCharDiff
    (.mk "p" "<p>x</p>" "x" [] []) (.mk "p" "<p>y</p>" "y" [] [])
    rfl (by decide) (by decide)

/-- C3 counterexample: `renderHtmlDifferences` is an exported rendering
function but does not render inserts as `span.diff-insert` around escaped
content — the `textComparison.ts` variant emits the stored content
verbatim and the `part_000` variant wraps it unescaped in a `div`. -/
theorem c3_render_html_differences_counterexample :
    TextComparison.renderHtmlDifferences [⟨.insert, "a&b"⟩] = "a&b" ∧
    Part000.renderHtmlDifferences [⟨.insert, "a&b"⟩] = "<div class=\"diff-insert\">a&b</div>" ∧
    TextComparison.renderHtmlDifferences [⟨.insert, "a&b"⟩] ≠
      "<span class=\"diff-insert\">" ++ escapeHtml "a&b" ++ "</span>" ∧
    Part000.renderHtmlDifferences [⟨.insert, "a&b"⟩] ≠
      "<span class=\"diff-insert\">" ++ escapeHtml "a&b" ++ "</span>" :=
  ⟨by decide, by decide, by decide, by decide⟩

/-- C3 (amended): `highlightDifferences` renders each insert as a
`span.diff-insert` and each delete as a `span.diff-delete` around the
HTML-escaped content, emits equal entries as escaped content only, and
joins the pieces in input order; the two `renderHtmlDifferences`
variants instead emit each entry's stored content without escaping, the
`textComparison.ts` one verbatim and the `part_000` one wrapped in `div`
elements bearing the same class names for inserts and deletes. -/
theorem c3_highlight_spans :
    (∀ ds es : List DiffResult,
      highlightDifferences (ds ++ es) = highlightDifferences ds ++ highlightDifferences es) ∧
    (∀ s, highlightDifferences [⟨.insert, s⟩] =
      "<span class=\"diff-insert\">" ++ escapeHtml s ++ "</span>") ∧
    (∀ s, highlightDifferences [⟨.delete, s⟩] =
      "<span class=\"diff-delete\">" ++ escapeHtml s ++ "</span>") ∧
    (∀ s, highlightDifferences [⟨.equal, s⟩] = escapeHtml s) ∧
    (∀ ds es, TextComparison.renderHtmlDifferences (ds ++ es) =
      TextComparison.renderHtmlDifferences ds ++ TextComparison.renderHtmlDifferences es) ∧
    (∀ s, TextComparison.renderHtmlDifferences [⟨.insert, s⟩] = s) ∧
    (∀ s, TextComparison.renderHtmlDifferences [⟨.delete, s⟩] = s) ∧
    (∀ ds es, Part000.renderHtmlDifferences (ds ++ es) =
      Part000.renderHtmlDifferences ds ++ Part000.renderHtmlDifferences es) ∧
    (∀ s, Part000.renderHtmlDifferences [⟨.insert, s⟩] =
      "<div class=\"diff-insert\">" ++ s ++ "</div>") ∧
    (∀ s, Part000.renderHtmlDifferences [⟨.delete, s⟩] =
      "<div class=\"diff-delete\">" ++ s ++ "</div>") := by
  refine ⟨?_, ?_, ?_, ?_, ?_, ?_, ?_, ?_, ?_, ?_⟩
  · intro ds es
    simp [highlightDifferences, List.map_append, strJoin_append]
  · intro s
    simp [highlightDifferences, strJoin_cons, String.join]
  · intro s
    simp [highlightDifferences, strJoin_cons, String.join]
  · intro s
    simp [highlightDifferences, strJoin_cons, String.join]
  · intro ds es
    simp [TextComparison.renderHtmlDifferences, List.map_append, strJoin_append]
  · intro s
    simp [TextComparison.renderHtmlDifferences, strJoin_cons, String.join]
  · intro s
    simp [TextComparison.renderHtmlDifferences, strJoin_cons, String.join]
  · intro ds es
    simp [Part000.renderHtmlDifferences, List.map_append, strJoin_append]
  · intro s
    simp [Part000.renderHtmlDifferences, strJoin_cons, String.join]
  · intro s
    simp [Part000.renderHtmlDifferences, strJoin_cons, String.join]

/-- C4: in the block-level `compareHtmlDocuments`, block boundaries are
preserved — stripping the empty padding entries, the left output contents
are exactly the parsed left blocks' original HTML in order, and likewise
on the right, so equal blocks keep each side's original HTML and inserted
or deleted blocks are emitted whole. -/
theorem c4_block_boundaries_preserved
    (parseHtmlBlocks : String → List Part000.Block)
    (diffArrays : List String → List String → List (Change (List String)))
    (leftHtml rightHtml : String) (res : ComparisonResult)
    (hvalid : ValidArrayDiff
      (diffArrays ((parseHtmlBlocks leftHtml).map Part000.Block.text)
        ((parseHtmlBlocks rightHtml).map Part000.Block.text))
      ((parseHtmlBlocks leftHtml).map Part000.Block.text)
      ((parseHtmlBlocks rightHtml).map Part000.Block.text))
    (hres : Part000.compareHtmlDocuments parseHtmlBlocks diffArrays leftHtml rightHtml = some res)
    (hneL : ∀ b ∈ parseHtmlBlocks leftHtml, b.html ≠ "")
    (hneR : ∀ b ∈ parseHtmlBlocks rightHtml, b.html ≠ "") :
    ((res.leftDiffs.map DiffResult.content).filter fun s => s ≠ "") =
      (parseHtmlBlocks leftHtml).map Part000.Block.html ∧
    ((res.rightDiffs.map DiffResult.content).filter fun s => s ≠ "") =
      (parseHtmlBlocks rightHtml).map Part000.Block.html := by
  rw [Part000.compareHtmlDocuments_eq_spec parseHtmlBlocks diffArrays leftHtml rightHtml hvalid]
    at hres
  obtain ⟨hcl, hcr⟩ := Part000.validArrayDiff_counts hvalid
  have hres' := (Option.some.injEq _ _).mp hres
  subst hres'
  constructor
  · have h := Part000.specSegments_fst_contents
      (diffArrays ((parseHtmlBlocks leftHtml).map Part000.Block.text)
        ((parseHtmlBlocks rightHtml).map Part000.Block.text))
      (parseHtmlBlocks leftHtml) (parseHtmlBlocks rightHtml) hcl hcr hneL
    simpa [List.map_map, Function.comp_def] using h
  · have h := Part000.specSegments_snd_contents
      (diffArrays ((parseHtmlBlocks leftHtml).map Part000.Block.text)
        ((parseHtmlBlocks rightHtml).map Part000.Block.text))
      (parseHtmlBlocks leftHtml) (parseHtmlBlocks rightHtml) hcl hcr hneR
    simpa [List.map_map, Function.comp_def] using h

/-- C4 witness: block preservation evaluated on the `sampleBlocks`
documents. -/
theorem c4_block_boundaries_preserved_witness :
    ((sampleBlockResult.leftDiffs.map DiffResult.content).filter fun s => s ≠ "") =
      (sampleBlocks "<p>x</p><p>y</p>").map Part000.Block.html ∧
    ((sampleBlockResult.rightDiffs.map DiffResult.content).filter fun s => s ≠ "") =
      (sampleBlocks "<p>y</p>").map Part000.Block.html :=
  c4_block_boundaries_preserved sampleBlocks sampleArrayDiff "<p>x</p><p>y</p>" "<p>y</p>"
    sampleBlockResult ⟨by decide, by decide, by decide⟩ (by decide) (by decide) (by decide)

/-- C5: under the contract of the external `diffArrays` primitive, the
block-level `compareHtmlDocuments` never fails — every array index taken
while replaying the diff segments stays in bounds, so the loop runs to
completion and a `ComparisonResult` is returned.  The other comparison
operations are total functions of the embedding by construction: the
element-wise variant and `compareWithWhitespace` test the out-of-range
accesses explicitly and both `compareDocuments` variants only fold over
the library's change list. -/
theorem c5_block_compare_total
    (parseHtmlBlocks : String → List Part000.Block)
    (diffArrays : List String → List String → List (Change (List String)))
    (leftHtml rightHtml : String)
    (h : ValidArrayDiff
      (diffArrays ((parseHtmlBlocks leftHtml).map Part000.Block.text)
        ((parseHtmlBlocks rightHtml).map Part000.Block.text))
      ((parseHtmlBlocks leftHtml).map Part000.Block.text)
      ((parseHtmlBlocks rightHtml).map Part000.Block.text)) :
    (Part000.compareHtmlDocuments parseHtmlBlocks diffArrays leftHtml rightHtml).isSome = true := by
  rw [Part000.compareHtmlDocuments_eq_spec parseHtmlBlocks diffArrays leftHtml rightHtml h]
  rfl

/-- C5 witness: totality evaluated on the `sampleBlocks` documents. -/
theorem c5_block_compare_total_witness :
    (Part000.compareHtmlDocuments sampleBlocks sampleArrayDiff
      "<p>x</p><p>y</p>" "<p>y</p>").isSome = true :=
  c5_block_compare_total sampleBlocks sampleArrayDiff "<p>x</p><p>y</p>" "<p>y</p>"
    ⟨by decide, by decide, by decide⟩

lemma tc_leftEntry_content (c : Change String) :
    (TextComparison.leftEntry c).content = c.value := by
  unfold TextComparison.leftEntry
  split <;> rfl

lemma tc_rightEntry_content (c : Change String) :
    (TextComparison.rightEntry c).content = c.value := by
  unfold TextComparison.rightEntry
  split <;> rfl

lemma tc_leftEntry_type (c : Change String) :
    (TextComparison.leftEntry c).type ≠ DiffType.insert := by
  unfold TextComparison.leftEntry
  split <;> simp

lemma tc_rightEntry_type (c : Change String) :
    (TextComparison.rightEntry c).type ≠ DiffType.delete := by
  unfold TextComparison.rightEntry
  split <;> simp

lemma p0_leftEntry_type (c : Change String) :
    (Part000.leftEntry c).type ≠ DiffType.insert := by
  unfold Part000.leftEntry
  split
  · simp
  · split <;> simp

lemma p0_rightEntry_type (c : Change String) :
    (Part000.rightEntry c).type ≠ DiffType.delete := by
  unfold Part000.rightEntry
  split
  · simp
  · split <;> simp

lemma p0_join_left (cs : List (Change String)) :
    String.join (cs.map fun c => (Part000.leftEntry c).content) =
      String.join ((cs.filter fun c => !c.added).map Change.value) := by
  induction cs with
  | nil => rfl
  | cons c cs ih =>
    rw [List.map_cons, strJoin_cons, ih]
    by_cases ha : c.added = true
    · simp [Part000.leftEntry, ha, List.filter_cons]
    · by_cases hr : c.removed = true
      · simp [Part000.leftEntry, ha, hr, List.filter_cons, strJoin_cons]
      · simp [Part000.leftEntry, ha, hr, List.filter_cons, strJoin_cons]

lemma p0_join_right (cs : List (Change String)) :
    String.join (cs.map fun c => (Part000.rightEntry c).content) =
      String.join ((cs.filter fun c => c.added || !c.removed).map Change.value) := by
  induction cs with
  | nil => rfl
  | cons c cs ih =>
    rw [List.map_cons, strJoin_cons, ih]
    by_cases ha : c.added = true
    · simp [Part000.rightEntry, ha, List.filter_cons, strJoin_cons]
    · by_cases hr : c.removed = true
      · simp [Part000.rightEntry, ha, hr, List.filter_cons]
      · simp [Part000.rightEntry, ha, hr, List.filter_cons, strJoin_cons]

/-- C6: both `compareDocuments` variants round-trip their inputs — under
the diff library's contract the concatenated contents of `leftDiffs`
rebuild the left text and those of `rightDiffs` rebuild the right text,
inserts appear only on the right, deletes only on the left, and each
common change's value appears as an equal entry on both sides. -/
theorem c6_compare_documents_round_trip :
    (∀ (diffWords : String → String → WordDiffOptions → List (Change String)) (l r : String),
      ValidDiff (diffWords l r ⟨false, false⟩) l r →
      (String.join ((TextComparison.compareDocuments diffWords l r).leftDiffs.map
          DiffResult.content) = l ∧
       String.join ((TextComparison.compareDocuments diffWords l r).rightDiffs.map
          DiffResult.content) = r ∧
       (∀ e ∈ (TextComparison.compareDocuments diffWords l r).leftDiffs,
          e.type ≠ DiffType.insert) ∧
       (∀ e ∈ (TextComparison.compareDocuments diffWords l r).rightDiffs,
          e.type ≠ DiffType.delete) ∧
       (∀ c ∈ diffWords l r ⟨false, false⟩, c.added = false → c.removed = false →
          (⟨.equal, c.value⟩ : DiffResult) ∈
            (TextComparison.compareDocuments diffWords l r).leftDiffs ∧
          (⟨.equal, c.value⟩ : DiffResult) ∈
            (TextComparison.compareDocuments diffWords l r).rightDiffs))) ∧
    (∀ (diffSentences : String → String → List (Change String)) (l r : String),
      ValidDiff (diffSentences l r) l r →
      (String.join ((Part000.compareDocuments diffSentences l r).leftDiffs.map
          DiffResult.content) = l ∧
       String.join ((Part000.compareDocuments diffSentences l r).rightDiffs.map
          DiffResult.content) = r ∧
       (∀ e ∈ (Part000.compareDocuments diffSentences l r).leftDiffs,
          e.type ≠ DiffType.insert) ∧
       (∀ e ∈ (Part000.compareDocuments diffSentences l r).rightDiffs,
          e.type ≠ DiffType.delete) ∧
       (∀ c ∈ diffSentences l r, c.added = false → c.removed = false →
          (⟨.equal, c.value⟩ : DiffResult) ∈
            (Part000.compareDocuments diffSentences l r).leftDiffs ∧
          (⟨.equal, c.value⟩ : DiffResult) ∈
            (Part000.compareDocuments diffSentences l r).rightDiffs))) := by
  have heta : (fun c : Change String => c.value) = Change.value := rfl
  constructor
  · intro dW l r hv
    obtain ⟨h1, h2, h3⟩ := hv
    rw [TextComparison.compareDocuments_eq]
    refine ⟨?_, ?_, ?_, ?_, ?_⟩
    · simpa [List.map_map, Function.comp_def, tc_leftEntry_content, heta] using h1
    · rw [← filter_not_removed_eq _ h3] at *
      simpa [List.map_map, Function.comp_def, tc_rightEntry_content, heta] using h2
    · intro e he
      obtain ⟨c, _, rfl⟩ := List.mem_map.mp he
      exact tc_leftEntry_type c
    · intro e he
      obtain ⟨c, _, rfl⟩ := List.mem_map.mp he
      exact tc_rightEntry_type c
    · intro c hc ha hr
      constructor
      · have hval : TextComparison.leftEntry c = ⟨.equal, c.value⟩ := by
          simp [TextComparison.leftEntry, hr]
        rw [← hval]
        exact List.mem_map_of_mem _ (List.mem_filter.mpr ⟨hc, by simp [ha]⟩)
      · have hval : TextComparison.rightEntry c = ⟨.equal, c.value⟩ := by
          simp [TextComparison.rightEntry, ha]
        rw [← hval]
        exact List.mem_map_of_mem _ (List.mem_filter.mpr ⟨hc, by simp [ha, hr]⟩)
  · intro dS l r hv
    obtain ⟨h1, h2, h3⟩ := hv
    rw [Part000.sentenceDocuments_eq]
    refine ⟨?_, ?_, ?_, ?_, ?_⟩
    · have := p0_join_left (dS l r)
      simp only [List.map_map, Function.comp_def] at this ⊢
      rw [this, h1]
    · have := p0_join_right (dS l r)
      simp only [List.map_map, Function.comp_def] at this ⊢
      rw [this, ← filter_not_removed_eq _ h3, h2]
    · intro e he
      obtain ⟨c, _, rfl⟩ := List.mem_map.mp he
      exact p0_leftEntry_type c
    · intro e he
      obtain ⟨c, _, rfl⟩ := List.mem_map.mp he
      exact p0_rightEntry_type c
    · intro c hc ha hr
      constructor
      · have hval : Part000.leftEntry c = ⟨.equal, c.value⟩ := by
          simp [Part000.leftEntry, ha, hr]
        rw [← hval]
        exact List.mem_map_of_mem _ hc
      · have hval : Part000.rightEntry c = ⟨.equal, c.value⟩ := by
          simp [Part000.rightEntry, ha, hr]
        rw [← hval]
        exact List.mem_map_of_mem _ hc

/-- C6 witness: the word-level round trip evaluated on `"a"`, `"b"` with
the sample diff. -/
theorem c6_compare_documents_round_trip_witness :
    String.join ((TextComparison.compareDocuments sampleWordDiff "a" "b").leftDiffs.map
      DiffResult.content) = "a" ∧
    String.join ((Part000.compareDocuments sampleSentenceDiff "a" "b").rightDiffs.map
      DiffResult.content) = "b" :=
  ⟨(c6_compare_documents_round_trip.1 sampleWordDiff "a" "b"
      ⟨by decide, by decide, by decide⟩).1,
   (c6_compare_documents_round_trip.2 sampleSentenceDiff "a" "b"
      ⟨by decide, by decide, by decide⟩).2.1⟩

/-- C7: every comparison operation returns a summary satisfying
`changes = additions + deletions` — both `compareDocuments` variants and
both `compareHtmlDocuments` variants set it so after their loops, and
`compareWithWhitespace` overwrites its per-line change counter with this
sum before returning. -/
theorem c7_changes_eq_additions_plus_deletions :
    (∀ (diffWords : String → String → WordDiffOptions → List (Change String)) (l r : String),
      (TextComparison.compareDocuments diffWords l r).summary.changes =
        (TextComparison.compareDocuments diffWords l r).summary.additions +
        (TextComparison.compareDocuments diffWords l r).summary.deletions) ∧
    (∀ (diffSentences : String → String → List (Change String)) (l r : String),
      (Part000.compareDocuments diffSentences l r).summary.changes =
        (Part000.compareDocuments diffSentences l r).summary.additions +
        (Part000.compareDocuments diffSentences l r).summary.deletions) ∧
    (∀ (parse : String → List ParsedElement)
      (diffChars : String → String → CharDiffOptions → List (Change String)) (l r : String),
      (TextComparison.compareHtmlDocuments parse diffChars l r).summary.changes =
        (TextComparison.compareHtmlDocuments parse diffChars l r).summary.additions +
        (TextComparison.compareHtmlDocuments parse diffChars l r).summary.deletions) ∧
    (∀ (diffChars : String → String → CharDiffOptions → List (Change String)) (l r : String),
      (TextComparison.compareWithWhitespace diffChars l r).summary.changes =
        (TextComparison.compareWithWhitespace diffChars l r).summary.additions +
        (TextComparison.compareWithWhitespace diffChars l r).summary.deletions) ∧
    (∀ (parse : String → List Part000.Block)
      (diffArrays : List String → List String → List (Change (List String)))
      (l r : String) (res : ComparisonResult),
      Part000.compareHtmlDocuments parse diffArrays l r = some res →
      res.summary.changes = res.summary.additions + res.summary.deletions) := by
  refine ⟨fun _ _ _ => rfl, fun _ _ _ => rfl, fun _ _ _ _ => rfl, fun _ _ _ => rfl, ?_⟩
  intro parse diffArrays l r res h
  simp only [Part000.compareHtmlDocuments, Option.map_eq_some'] at h
  obtain ⟨st, _, hres⟩ := h
  subst hres
  rfl

/-- C7 witness: the summary identity evaluated on the `sampleBlocks`
documents through the block-level variant. -/
theorem c7_changes_eq_additions_plus_deletions_witness :
    sampleBlockResult.summary.changes =
      sampleBlockResult.summary.additions + sampleBlockResult.summary.deletions :=
  c7_changes_eq_additions_plus_deletions.2.2.2.2 sampleBlocks sampleArrayDiff
    "<p>x</p><p>y</p>" "<p>y</p>" sampleBlockResult (by decide)

/-- C8 counterexample: in the element-wise `compareHtmlDocuments`, an
insert on the right is not always paired with an empty equal entry on the
left — when two positions hold elements with different tags the insert is
paired with a delete (a replacement). -/
theorem c8_replacement_pairing_counterexample :
    (TextComparison.compareHtmlDocuments sampleElements sampleCharDiff
      "<p>x</p>" "<h1>y</h1>").rightDiffs = [⟨.insert, "<h1>y</h1>"⟩] ∧
    (TextComparison.compareHtmlDocuments sampleElements sampleCharDiff
      "<p>x</p>" "<h1>y</h1>").leftDiffs = [⟨.delete, "<p>x</p>"⟩] ∧
    ([(⟨.delete, "<p>x</p>"⟩ : DiffResult)] : List DiffResult) ≠ [⟨.equal, ""⟩] :=
  ⟨by decide, by decide, by decide⟩

/-- C8 (amended): all three operations keep `leftDiffs` and `rightDiffs`
of equal length; in the sentence-level `compareDocuments` and the
block-level `compareHtmlDocuments` every insert on the right is paired
positionally with an empty equal entry on the left and every delete on
the left with an empty equal entry on the right, while the element-wise
variant may pair an insert with a delete (replacement of different-tag
elements). -/
theorem c8_aligned_lengths_and_padding :
    (∀ (diffSentences : String → String → List (Change String)) (l r : String),
      ((Part000.compareDocuments diffSentences l r).leftDiffs.length =
        (Part000.compareDocuments diffSentences l r).rightDiffs.length) ∧
      (∀ (i : Nat) (d : DiffResult),
        (Part000.compareDocuments diffSentences l r).rightDiffs[i]? = some d →
        d.type = DiffType.insert →
        (Part000.compareDocuments diffSentences l r).leftDiffs[i]? = some ⟨.equal, ""⟩) ∧
      (∀ (i : Nat) (d : DiffResult),
        (Part000.compareDocuments diffSentences l r).leftDiffs[i]? = some d →
        d.type = DiffType.delete →
        (Part000.compareDocuments diffSentences l r).rightDiffs[i]? = some ⟨.equal, ""⟩)) ∧
    (∀ (parse : String → List ParsedElement)
      (diffChars : String → String → CharDiffOptions → List (Change String)) (l r : String),
      (TextComparison.compareHtmlDocuments parse diffChars l r).leftDiffs.length =
        (TextComparison.compareHtmlDocuments parse diffChars l r).rightDiffs.length) ∧
    (∀ (parse : String → List Part000.Block)
      (diffArrays : List String → List String → List (Change (List String)))
      (l r : String) (res : ComparisonResult),
      ValidArrayDiff
        (diffArrays ((parse l).map Part000.Block.text) ((parse r).map Part000.Block.text))
        ((parse l).map Part000.Block.text) ((parse r).map Part000.Block.text) →
      Part000.compareHtmlDocuments parse diffArrays l r = some res →
      (res.leftDiffs.length = res.rightDiffs.length ∧
       (∀ (i : Nat) (d : DiffResult), res.rightDiffs[i]? = some d →
         d.type = DiffType.insert → res.leftDiffs[i]? = some ⟨.equal, ""⟩) ∧
       (∀ (i : Nat) (d : DiffResult), res.leftDiffs[i]? = some d →
         d.type = DiffType.delete → res.rightDiffs[i]? = some ⟨.equal, ""⟩))) := by
  have hs1 : ∀ c : Change String, (Part000.rightEntry c).type = DiffType.insert →
      Part000.leftEntry c = ⟨.equal, ""⟩ := by
    intro c h
    unfold Part000.rightEntry at h
    unfold Part000.leftEntry
    by_cases ha : c.added = true
    · simp [ha]
    · by_cases hr : c.removed = true
      · simp [ha, hr] at h
      · simp [ha, hr] at h
  have hs2 : ∀ c : Change String, (Part000.leftEntry c).type = DiffType.delete →
      Part000.rightEntry c = ⟨.equal, ""⟩ := by
    intro c h
    unfold Part000.leftEntry at h
    unfold Part000.rightEntry
    by_cases ha : c.added = true
    · simp [ha] at h
    · by_cases hr : c.removed = true
      · simp [ha, hr]
      · simp [ha, hr] at h
  refine ⟨?_, ?_, ?_⟩
  · intro dS l r
    rw [Part000.sentenceDocuments_eq]
    refine ⟨by simp, ?_, ?_⟩
    · intro i d h hins
      rw [List.getElem?_map] at h ⊢
      cases hc : (dS l r)[i]? with
      | none => rw [hc] at h; simp at h
      | some c =>
        rw [hc] at h
        simp only [Option.map_some'] at h ⊢
        have hd : Part000.rightEntry c = d := by injection h
        rw [hs1 c (hd ▸ hins)]
    · intro i d h hdel
      rw [List.getElem?_map] at h ⊢
      cases hc : (dS l r)[i]? with
      | none => rw [hc] at h; simp at h
      | some c =>
        rw [hc] at h
        simp only [Option.map_some'] at h ⊢
        have hd : Part000.leftEntry c = d := by injection h
        rw [hs2 c (hd ▸ hdel)]
  · intro parse dC l r
    simpa [TextComparison.compareHtmlDocuments] using
      TextComparison.compareElements_length dC (parse l) (parse r)
  · intro parse dA l r res hvalid hres
    rw [Part000.compareHtmlDocuments_eq_spec parse dA l r hvalid] at hres
    have hres' := (Option.some.injEq _ _).mp hres
    subst hres'
    refine ⟨by simp, ?_, ?_⟩
    · intro i d h hins
      simp only [List.getElem?_map] at h ⊢
      cases hp : (Part000.specSegments
          (dA ((parse l).map Part000.Block.text) ((parse r).map Part000.Block.text))
          (parse l) (parse r)).pairs[i]? with
      | none => rw [hp] at h; simp at h
      | some p =>
        rw [hp] at h
        simp only [Option.map_some'] at h ⊢
        have hpmem := List.getElem?_mem hp
        have hd : p.2 = d := by injection h
        rw [(Part000.specSegments_pairs_padding _ _ _ p hpmem).1 (hd ▸ hins)]
    · intro i d h hdel
      simp only [List.getElem?_map] at h ⊢
      cases hp : (Part000.specSegments
          (dA ((parse l).map Part000.Block.text) ((parse r).map Part000.Block.text))
          (parse l) (parse r)).pairs[i]? with
      | none => rw [hp] at h; simp at h
      | some p =>
        rw [hp] at h
        simp only [Option.map_some'] at h ⊢
        have hpmem := List.getElem?_mem hp
        have hd : p.1 = d := by injection h
        rw [(Part000.specSegments_pairs_padding _ _ _ p hpmem).2 (hd ▸ hdel)]

/-- C8 witness: the pairing evaluated on the sentence-level comparison of
`"a"` and `"b"` — the insert at position 1 on the right faces an empty
equal entry on the left. -/
theorem c8_aligned_lengths_and_padding_witness :
    (Part000.compareDocuments sampleSentenceDiff "a" "b").leftDiffs[1]? =
      some ⟨.equal, ""⟩ :=
  (c8_aligned_lengths_and_padding.1 sampleSentenceDiff "a" "b").2.1 1 ⟨.insert, "b"⟩
    (by decide) rfl

/-- C9: every comparison operation is deterministic — each is a pure
function of the two input strings and the responses of the external
primitives it delegates to, so two runs with the same inputs and the same
primitives produce identical results; there is no other state. -/
theorem c9_comparisons_deterministic :
    (∀ (d d' : String → String → WordDiffOptions → List (Change String)) (l l' r r' : String),
      d = d' → l = l' → r = r' →
      TextComparison.compareDocuments d l r = TextComparison.compareDocuments d' l' r') ∧
    (∀ (d d' : String → String → List (Change String)) (l l' r r' : String),
      d = d' → l = l' → r = r' →
      Part000.compareDocuments d l r = Part000.compareDocuments d' l' r') ∧
    (∀ (p p' : String → List ParsedElement)
      (d d' : String → String → CharDiffOptions → List (Change String)) (l l' r r' : String),
      p = p' → d = d' → l = l' → r = r' →
      TextComparison.compareHtmlDocuments p d l r =
        TextComparison.compareHtmlDocuments p' d' l' r') ∧
    (∀ (d d' : String → String → CharDiffOptions → List (Change String)) (l l' r r' : String),
      d = d' → l = l' → r = r' →
      TextComparison.compareWithWhitespace d l r =
        TextComparison.compareWithWhitespace d' l' r') ∧
    (∀ (p p' : String → List Part000.Block)
      (d d' : List String → List String → List (Change (List String))) (l l' r r' : String),
      p = p' → d = d' → l = l' → r = r' →
      Part000.compareHtmlDocuments p d l r = Part000.compareHtmlDocuments p' d' l' r') := by
  refine ⟨?_, ?_, ?_, ?_, ?_⟩
  · intro d d' l l' r r' hd hl hr
    subst hd; subst hl; subst hr; rfl
  · intro d d' l l' r r' hd hl hr
    subst hd; subst hl; subst hr; rfl
  · intro p p' d d' l l' r r' hp hd hl hr
    subst hp; subst hd; subst hl; subst hr; rfl
  · intro d d' l l' r r' hd hl hr
    subst hd; subst hl; subst hr; rfl
  · intro p p' d d' l l' r r' hp hd hl hr
    subst hp; subst hd; subst hl; subst hr; rfl

/-- C9 witness: determinism evaluated on concrete inputs. -/
theorem c9_comparisons_deterministic_witness :
    TextComparison.compareDocuments sampleWordDiff "a" "b" =
      TextComparison.compareDocuments sampleWordDiff "a" "b" :=
  c9_comparisons_deterministic.1 sampleWordDiff sampleWordDiff "a" "a" "b" "b" rfl rfl rfl

/-- C10: each comparison delegates its granularity to the corresponding
external primitive, and its result depends on that primitive only at the
documented call — the word-level `compareDocuments` consults `diffWords`
on the two whole texts with `ignoreWhitespace: false, ignoreCase: false`,
the sentence-level variant consults `diffSentences` on the two whole
texts, `compareElementText` consults `diffChars` on the two elements'
text, `compareWithWhitespace` consults `diffChars` only on pairs of
differing lines, and the block-level `compareHtmlDocuments` consults
`diffArrays` on the two lists of parsed block texts. -/
theorem c10_granularities_delegate_to_primitives :
    (∀ (d d' : String → String → WordDiffOptions → List (Change String)) (l r : String),
      d l r ⟨false, false⟩ = d' l r ⟨false, false⟩ →
      TextComparison.compareDocuments d l r = TextComparison.compareDocuments d' l r) ∧
    (∀ (d d' : String → String → List (Change String)) (l r : String),
      d l r = d' l r →
      Part000.compareDocuments d l r = Part000.compareDocuments d' l r) ∧
    (∀ (d d' : String → String → CharDiffOptions → List (Change String))
      (leftEl rightEl : ParsedElement),
      d leftEl.text rightEl.text ⟨false⟩ = d' leftEl.text rightEl.text ⟨false⟩ →
      TextComparison.compareElementText d leftEl rightEl =
        TextComparison.compareElementText d' leftEl rightEl) ∧
    (∀ (d d' : String → String → CharDiffOptions → List (Change String)) (l r : String),
      (∀ a ∈ l.splitOn "\n", ∀ b ∈ r.splitOn "\n", a ≠ b → d a b ⟨false⟩ = d' a b ⟨false⟩) →
      TextComparison.compareWithWhitespace d l r =
        TextComparison.compareWithWhitespace d' l r) ∧
    (∀ (parse : String → List Part000.Block)
      (d d' : List String → List String → List (Change (List String))) (l r : String),
      d ((parse l).map Part000.Block.text) ((parse r).map Part000.Block.text) =
        d' ((parse l).map Part000.Block.text) ((parse r).map Part000.Block.text) →
      Part000.compareHtmlDocuments parse d l r = Part000.compareHtmlDocuments parse d' l r) := by
  refine ⟨?_, ?_, ?_, ?_, ?_⟩
  · intro d d' l r h
    simp only [TextComparison.compareDocuments]
    rw [h]
  · intro d d' l r h
    simp only [Part000.compareDocuments]
    rw [h]
  · intro d d' leftEl rightEl h
    simp only [TextComparison.compareElementText]
    rw [h]
  · intro d d' l r h
    simp only [TextComparison.compareWithWhitespace]
    rw [TextComparison.walkLines_congr d d' (l.splitOn "\n") (r.splitOn "\n") h]
  · intro parse d d' l r h
    simp only [Part000.compareHtmlDocuments]
    rw [h]

/-- C10 witness: delegation evaluated on concrete inputs for the
line-level and block-level operations. -/
theorem c10_granularities_delegate_to_primitives_witness :
    TextComparison.compareWithWhitespace sampleCharDiff "a\nb" "a\nc" =
      TextComparison.compareWithWhitespace sampleCharDiff "a\nb" "a\nc" ∧
    Part000.compareHtmlDocuments sampleBlocks sampleArrayDiff "<p>x</p><p>y</p>" "<p>y</p>" =
      Part000.compareHtmlDocuments sampleBlocks sampleArrayDiff "<p>x</p><p>y</p>" "<p>y</p>" :=
  ⟨c10_granularities_delegate_to_primitives.2.2.2.1 sampleCharDiff sampleCharDiff "a\nb" "a\nc"
      (fun _ _ _ _ _ => rfl),
   c10_granularities_delegate_to_primitives.2.2.2.2 sampleBlocks sampleArrayDiff sampleArrayDiff
      "<p>x</p><p>y</p>" "<p>y</p>" rfl⟩
